import Mathlib

/-!
Verification of the orbital-anomaly-solver specification of the meeus
repository.

The kepler and parabolic package sources are not among the staged files
(only their tests are), so the elliptical and parabolic solvers are
modelled from the specification's own description: each iterative
elliptical solver is a single-pass loop with a start state, an update
rule and two terminal conditions (successive-iterate difference below an
internal tolerance = success, iteration budget exhausted = failure); the
bounded-search variant brackets the root and halves the interval an
internally fixed number of times; the parabolic solver scales time since
perihelion by a distance-dependent constant and solves Barker's cubic by
a purpose-built iteration.

The saturnring and precess packages ARE among the staged files and are
embedded from their sources, with the collaborator packages they call
(base, coord, nutation, planetposition) abstracted as function
parameters where their own sources are not staged.
-/

namespace Meeus

open Real

/-! ### Elliptical solvers, modelled from the spec -/

/-- Modelled from the spec: the internal convergence tolerance of the
fixed-point solver `Kepler1` ("tight enough to match 6-7 significant
decimal digits"); the kepler package source is not among the staged
files. -/
noncomputable def tol1 : ℝ := 1e-9

/-- Modelled from the spec: the internal convergence tolerance of the
Newton-Raphson solvers `Kepler2`, `Kepler2a`, `Kepler2b` ("higher-precision
results per iteration than the fixed-point method"). -/
noncomputable def tol2 : ℝ := 1e-12

/-- Modelled from the spec: the generic single-pass iterative loop shared by
the iterative elliptical solvers: "a start state (initial guess), a
transition (update rule), and two terminal conditions: converged (success)
or budget exhausted (failure)".  Convergence is declared on the
successive-iterate difference, not on the residual of the equation. -/
noncomputable def solveGo (step : ℝ → ℝ) (tol : ℝ) : ℝ → ℕ → Option ℝ
  | _, 0 => none
  | E0, n + 1 =>
    if |step E0 - E0| < tol then some (step E0) else solveGo step tol (step E0) n

/-- The residual of Kepler's equation `M = E - e sin E` at a candidate `E`. -/
noncomputable def keplerF (e M E : ℝ) : ℝ := E - e * Real.sin E - M

/-- Modelled from the spec: the fixed-point update `E1 = M + e sin E0`. -/
noncomputable def fixpointStep (e M E : ℝ) : ℝ := M + e * Real.sin E

/-- Modelled from the spec: the Newton-Raphson update
`E1 = E0 - (E0 - e sin E0 - M) / (1 - e cos E0)`. -/
noncomputable def newtonStep (e M E : ℝ) : ℝ :=
  E - (E - e * Real.sin E - M) / (1 - e * Real.cos E)

/-- Modelled from the spec: `Kepler1`, fixed-point iteration started at
`E0 = M`, budget `n`, tolerance `tol1`. -/
noncomputable def Kepler1 (e M : ℝ) (n : ℕ) : Option ℝ :=
  solveGo (fixpointStep e M) tol1 M n

/-- Modelled from the spec: `Kepler2`, Newton-Raphson with standard start
`E0 = M`, budget `n`, tolerance `tol2`. -/
noncomputable def Kepler2 (e M : ℝ) (n : ℕ) : Option ℝ :=
  solveGo (newtonStep e M) tol2 M n

/-- Modelled from the spec: `Kepler2a`, Newton-Raphson with the robust start
`E0 = π` for high eccentricity. -/
noncomputable def Kepler2a (e M : ℝ) (n : ℕ) : Option ℝ :=
  solveGo (newtonStep e M) tol2 Real.pi n

/-- Modelled from the spec: `Kepler2b`, "functionally identical to Kepler2a
but expressed over raw angle magnitudes rather than a typed angle
abstraction"; over real scalars the two coincide. -/
noncomputable def Kepler2b (e M : ℝ) (n : ℕ) : Option ℝ :=
  solveGo (newtonStep e M) tol2 Real.pi n

/-- Modelled from the spec: one halving step of the bounded search, keeping
the invariant that the residual changes sign over the bracket. -/
noncomputable def bisect (f : ℝ → ℝ) : ℝ → ℝ → ℕ → ℝ × ℝ
  | lo, hi, 0 => (lo, hi)
  | lo, hi, k + 1 =>
    if f ((lo + hi) / 2) ≤ 0 then bisect f ((lo + hi) / 2) hi k
    else bisect f lo ((lo + hi) / 2) k

/-- Modelled from the spec: the number of interval halvings the
bounded-search solver `Kepler3` performs ("internally bounds its own
iteration count"). -/
def kepler3Steps : ℕ := 60

/-- Modelled from the spec: the accuracy `Kepler3` attains with its
internal iteration bound. -/
noncomputable def tol3 : ℝ := 1 / 2 ^ 59

/-- Modelled from the spec: `Kepler3`, bounded search with no
caller-supplied iteration cap: it brackets the root of Kepler's equation
in `[M-1, M+1]`, halves the bracket `kepler3Steps` times and returns the
midpoint.  It always produces an answer. -/
noncomputable def Kepler3 (e M : ℝ) : ℝ :=
  ((bisect (keplerF e M) (M - 1) (M + 1) kepler3Steps).1 +
    (bisect (keplerF e M) (M - 1) (M + 1) kepler3Steps).2) / 2

/-! ### Parabolic solver, modelled from the spec -/

namespace parabolic

/-- Parabolic orbital elements: `TimeP` the epoch of perihelion passage and
`PDis` the perihelion distance. -/
structure Elements where
  TimeP : ℝ
  PDis : ℝ

/-- Modelled from the spec: the purpose-built fast-converging iteration for
the auxiliary variable `s` of Barker's cubic `s^3 + 3 s = W`, started from
`W / 3`. -/
noncomputable def barkerIter (W : ℝ) : ℕ → ℝ
  | 0 => W / 3
  | k + 1 =>
    (2 * barkerIter W k ^ 3 + W) / (3 * (barkerIter W k ^ 2 + 1))

/-- Modelled from the spec: the internal iteration bound of the parabolic
solver (it takes no caller-supplied cap). -/
def barkerSteps : ℕ := 100

/-- Modelled from the spec: `AnomalyDistance` computes `W` as time since
perihelion scaled by a distance-dependent constant (the constant `K` is an
abstract parameter: its value is not given by the spec), solves Barker's
cubic for the auxiliary `s`, and returns the true anomaly
`ν = 2 atan s` and the radius vector `r = PDis * (1 + s^2)`. -/
noncomputable def AnomalyDistance (K : ℝ) (el : Elements) (t : ℝ) : ℝ × ℝ :=
  (2 * Real.arctan (barkerIter (K * (t - el.TimeP) / (el.PDis * Real.sqrt el.PDis)) barkerSteps),
    el.PDis * (1 + barkerIter (K * (t - el.TimeP) / (el.PDis * Real.sqrt el.PDis)) barkerSteps ^ 2))

end parabolic

/-! ### Taylor partial sums of sine and cosine

Alternating enclosures of `sin` and `cos` by the partial sums of their
power series, used to evaluate the solvers' trigonometry at the literal
inputs of the spec's test cases. -/

/-- The sum of the first `n` terms of the sine power series. -/
noncomputable def sinT (n : ℕ) (x : ℝ) : ℝ :=
  ∑ i ∈ Finset.range n, (-1) ^ i * x ^ (2 * i + 1) / (Nat.factorial (2 * i + 1) : ℝ)

/-- The sum of the first `n` terms of the cosine power series. -/
noncomputable def cosT (n : ℕ) (x : ℝ) : ℝ :=
  ∑ i ∈ Finset.range n, (-1) ^ i * x ^ (2 * i) / (Nat.factorial (2 * i) : ℝ)

/-! ### Precession (embedded from the staged precess source)

`base.Horner` and `base.CosSmallAngle` belong to the base package, which is
not among the staged files; they are abstracted as parameters `horner` and
`csa`.  Go's `math.Atan2` is embedded as `atan2`. -/

/-- Go's `math.Atan2 y x`. -/
noncomputable def atan2 (y x : ℝ) : ℝ :=
  if 0 < x then Real.arctan (y / x)
  else if x < 0 then
    (if 0 ≤ y then Real.arctan (y / x) + Real.pi else Real.arctan (y / x) - Real.pi)
  else
    (if 0 < y then Real.pi / 2 else if y < 0 then -(Real.pi / 2) else 0)

namespace precess

/-- `coord.Equatorial`: right ascension and declination in radians (the
coord package is not staged; only these two fields are used by precess). -/
structure Equatorial where
  RA : ℝ
  Dec : ℝ

/-- The `Precessor` struct of the precess package. -/
structure Precessor where
  ζ : ℝ
  z : ℝ
  sθ : ℝ
  cθ : ℝ

/-- Package coefficient slice `ζt`. -/
noncomputable def ζt : List ℝ := [2306.2181, 0.30188, 0.017998]

/-- Package coefficient slice `zt`. -/
noncomputable def zt : List ℝ := [2306.2181, 1.09468, 0.018203]

/-- Package coefficient slice `θt`. -/
noncomputable def θt : List ℝ := [2004.3109, -0.42665, -0.041833]

/-- Package coefficient slice `ζT`. -/
noncomputable def ζTc : List ℝ := [2306.2181, 1.39656, -0.000139]

/-- Package coefficient slice `zT`. -/
noncomputable def zTc : List ℝ := [2306.2181, 1.39656, -0.000139]

/-- Package coefficient slice `θT`. -/
noncomputable def θTc : List ℝ := [2004.3109, -0.8533, -0.000217]

/-- `NewPrecessor` of the precess package (`horner` abstracts
`base.Horner`). -/
noncomputable def NewPrecessor (horner : ℝ → List ℝ → ℝ)
    (epochFrom epochTo : ℝ) : Precessor :=
  let ζCoeff := if epochFrom ≠ 2000 then
      let T := (epochFrom - 2000) * 0.01
      [horner T ζTc, 0.30188 - 0.000344 * T, 0.017998]
    else ζt
  let zCoeff := if epochFrom ≠ 2000 then
      let T := (epochFrom - 2000) * 0.01
      [horner T zTc, 1.09468 - 0.000066 * T, 0.018203]
    else zt
  let θCoeff := if epochFrom ≠ 2000 then
      let T := (epochFrom - 2000) * 0.01
      [horner T θTc, -0.42665 - 0.000217 * T, -0.041833]
    else θt
  let t := (epochTo - epochFrom) * 0.01
  let θ := horner t θCoeff * t * Real.pi / 180 / 3600
  { ζ := horner t ζCoeff * t * Real.pi / 180 / 3600
    z := horner t zCoeff * t * Real.pi / 180 / 3600
    sθ := Real.sin θ
    cθ := Real.cos θ }

/-- `Precessor.Precess` with distinct source and destination structs: all
fields of `eqFrom` are read into locals before anything is written
(`csa` abstracts `base.CosSmallAngle`). -/
noncomputable def Precess (csa : ℝ) (p : Precessor) (eqFrom : Equatorial) :
    Equatorial :=
  let sδ := Real.sin eqFrom.Dec
  let cδ := Real.cos eqFrom.Dec
  let sαζ := Real.sin (eqFrom.RA + p.ζ)
  let cαζ := Real.cos (eqFrom.RA + p.ζ)
  let A := cδ * sαζ
  let B := p.cθ * cδ * cαζ - p.sθ * sδ
  let C := p.sθ * cδ * cαζ + p.cθ * sδ
  { RA := atan2 A B + p.z
    Dec := if C < csa then Real.arcsin C
      else Real.arccos (Real.sqrt (A * A + B * B)) }

/-- `Precessor.Precess` with `eqFrom` and `eqTo` the same struct, following
the statement order of the source: the locals are computed from the cell,
then `RA` is written, then `Dec` is written (from the locals, not from the
cell). -/
noncomputable def PrecessAliased (csa : ℝ) (p : Precessor) (cell : Equatorial) :
    Equatorial :=
  let sδ := Real.sin cell.Dec
  let cδ := Real.cos cell.Dec
  let sαζ := Real.sin (cell.RA + p.ζ)
  let cαζ := Real.cos (cell.RA + p.ζ)
  let A := cδ * sαζ
  let B := p.cθ * cδ * cαζ - p.sθ * sδ
  let C := p.sθ * cδ * cαζ + p.cθ * sδ
  let cell1 : Equatorial := { cell with RA := atan2 A B + p.z }
  let cell2 : Equatorial := { cell1 with
    Dec := if C < csa then Real.arcsin C
      else Real.arccos (Real.sqrt (A * A + B * B)) }
  cell2

/-- `Precessor.Precess` on a two-cell store with distinct structs: writes go
only to the destination cell, and the source cell is returned unchanged. -/
noncomputable def PrecessDistinct (csa : ℝ) (p : Precessor)
    (eqFrom eqTo : Equatorial) : Equatorial × Equatorial :=
  let sδ := Real.sin eqFrom.Dec
  let cδ := Real.cos eqFrom.Dec
  let sαζ := Real.sin (eqFrom.RA + p.ζ)
  let cαζ := Real.cos (eqFrom.RA + p.ζ)
  let A := cδ * sαζ
  let B := p.cθ * cδ * cαζ - p.sθ * sδ
  let C := p.sθ * cδ * cαζ + p.cθ * sδ
  let to1 : Equatorial := { eqTo with RA := atan2 A B + p.z }
  let to2 : Equatorial := { to1 with
    Dec := if C < csa then Real.arcsin C
      else Real.arccos (Real.sqrt (A * A + B * B)) }
  (eqFrom, to2)

/-- `precess.Position`: applies proper motion over `epochTo - epochFrom`
years into the destination struct, then precesses it in place (the source
calls `p.Precess(eqTo, eqTo)` with both arguments the same struct). -/
noncomputable def Position (horner : ℝ → List ℝ → ℝ) (csa : ℝ)
    (eqFrom : Equatorial) (epochFrom epochTo mα mδ : ℝ) : Equatorial :=
  let p := NewPrecessor horner epochFrom epochTo
  let t := epochTo - epochFrom
  PrecessAliased csa p ⟨eqFrom.RA + mα * t, eqFrom.Dec + mδ * t⟩

end precess

/-! ### Ring of Saturn (embedded from the staged saturnring source)

The collaborator packages saturnring calls (base, planetposition, nutation,
coord), none of which are staged, are abstracted as the fields of `Collab`;
a planet's `Position` method is abstracted as a function
`ℝ → ℝ × ℝ × ℝ` from jde to `(l, b, r)`. -/

namespace saturnring

/-- The collaborators the saturnring source calls. -/
structure Collab where
  horner : ℝ → List ℝ → ℝ
  j2000Century : ℝ → ℝ
  lightTime : ℝ → ℝ
  toFK5 : ℝ → ℝ → ℝ → ℝ × ℝ
  nutation : ℝ → ℝ × ℝ
  meanObliquity : ℝ → ℝ
  eclToEq : ℝ → ℝ → ℝ → ℝ → ℝ × ℝ

/-- `unit.AngleFromDeg`. -/
noncomputable def angleFromDeg (d : ℝ) : ℝ := d * Real.pi / 180

/-- `unit.AngleFromSec`. -/
noncomputable def angleFromSec (s : ℝ) : ℝ := s * Real.pi / (180 * 3600)

/-- The captured variables that the second closure `f2` reads after the
first closure `f1` has run. -/
structure RingState where
  i : ℝ
  Ω : ℝ
  l0 : ℝ
  Δ : ℝ
  lam : ℝ
  β : ℝ
  si : ℝ
  ci : ℝ
  sβ : ℝ
  cβ : ℝ
  sB : ℝ
  sbp : ℝ
  cbp : ℝ
  slpΩ : ℝ
  clpΩ : ℝ

/-- The results of the inner closure `f` of `f1` (steps 3-4): Saturn's
light-time-corrected position and the geocentric rectangular coordinates,
together with the updated distance `Δ`. -/
structure Inner where
  l : ℝ
  b : ℝ
  r : ℝ
  x : ℝ
  y : ℝ
  z : ℝ
  Δ : ℝ

/-- The inner closure `f` of `f1`: one light-time iteration.  It reads the
current `Δ` and recomputes `l, b, r, x, y, z` and `Δ` from scratch. -/
noncomputable def innerStep (c : Collab) (jde : ℝ) (saturn : ℝ → ℝ × ℝ × ℝ)
    (R sl0 cl0 sb0 : ℝ) (Δ : ℝ) : Inner :=
  let τ := c.lightTime Δ
  let ps := saturn (jde - τ)
  let fk := c.toFK5 ps.1 ps.2.1 jde
  let l := fk.1
  let b := fk.2
  let r := ps.2.2
  let sl := Real.sin l
  let cl := Real.cos l
  let sb := Real.sin b
  let cb := Real.cos b
  let x := r * cb * cl - R * cl0
  let y := r * cb * sl - R * sl0
  let z := r * sb - R * sb0
  { l := l, b := b, r := r, x := x, y := y, z := z
    Δ := Real.sqrt (x * x + y * y + z * z) }

/-- The first closure `f1` returned by `cl`: computes `ΔU` and `B`, writing
the captured variables `f2` later reads. -/
noncomputable def f1 (c : Collab) (jde : ℝ) (earth saturn : ℝ → ℝ × ℝ × ℝ) :
    ℝ × ℝ × RingState :=
  let T := c.j2000Century jde
  let i := angleFromDeg (c.horner T [28.075216, -0.012998, 0.000004])
  let Ω := angleFromDeg (c.horner T [169.50847, 1.394681, 0.000412])
  let p0 := earth jde
  let fk := c.toFK5 p0.1 p0.2.1 jde
  let l0 := fk.1
  let b0 := fk.2
  let R := p0.2.2
  let sl0 := Real.sin l0
  let cl0 := Real.cos l0
  let sb0 := Real.sin b0
  let run1 := innerStep c jde saturn R sl0 cl0 sb0 9
  let run2 := innerStep c jde saturn R sl0 cl0 sb0 run1.Δ
  let lam := atan2 run2.y run2.x
  let β := Real.arctan (run2.z / Real.sqrt (run2.x * run2.x + run2.y * run2.y))
  let si := Real.sin i
  let ci := Real.cos i
  let sβ := Real.sin β
  let cβ := Real.cos β
  let sB := si * cβ * Real.sin (lam - Ω) - ci * sβ
  let B := Real.arcsin sB
  let N := angleFromDeg (113.6655 + 0.8771 * T)
  let lp := run2.l - angleFromDeg 0.01759 / run2.r
  let bp := run2.b - angleFromDeg 0.000764 * (Real.cos (run2.l - N) / run2.r)
  let sbp := Real.sin bp
  let cbp := Real.cos bp
  let slpΩ := Real.sin (lp - Ω)
  let clpΩ := Real.cos (lp - Ω)
  let slamΩ := Real.sin (lam - Ω)
  let clamΩ := Real.cos (lam - Ω)
  let U1 := atan2 (si * sbp + ci * cbp * slpΩ) (cbp * clpΩ)
  let U2 := atan2 (si * sβ + ci * cβ * slamΩ) (cβ * clamΩ)
  let ΔU := |U1 - U2|
  (ΔU, B, { i := i, Ω := Ω, l0 := l0, Δ := run2.Δ, lam := lam, β := β
            si := si, ci := ci, sβ := sβ, cβ := cβ, sB := sB
            sbp := sbp, cbp := cbp, slpΩ := slpΩ, clpΩ := clpΩ })

/-- The second closure `f2` returned by `cl`: computes `Bʹ, P, aEdge, bEdge`
from the state `f1` left behind. -/
noncomputable def f2 (c : Collab) (jde : ℝ) (st : RingState) : ℝ × ℝ × ℝ × ℝ :=
  let aEdge := angleFromSec 375.35 / st.Δ
  let bEdge := aEdge * |st.sB|
  let sBp := st.si * st.cbp * st.slpΩ - st.ci * st.sbp
  let Bp := Real.arcsin sBp
  let nut := c.nutation jde
  let Δψ := nut.1
  let Δε := nut.2
  let ε := c.meanObliquity jde + Δε
  let lam0 := st.Ω - Real.pi / 2
  let β0 := Real.pi / 2 - st.i
  let sl0lam := Real.sin (st.l0 - st.lam)
  let cl0lam := Real.cos (st.l0 - st.lam)
  let lam := st.lam + angleFromDeg 0.005693 * (cl0lam / st.cβ)
  let β := st.β + angleFromDeg 0.005693 * (sl0lam * st.sβ)
  let lam0n := lam0 + Δψ
  let lamn := lam + Δψ
  let sε := Real.sin ε
  let cε := Real.cos ε
  let a0 := c.eclToEq lam0n β0 sε cε
  let a := c.eclToEq lamn β sε cε
  let sδ0 := Real.sin a0.2
  let cδ0 := Real.cos a0.2
  let sδ := Real.sin a.2
  let cδ := Real.cos a.2
  let sα0α := Real.sin (a0.1 - a.1)
  let cα0α := Real.cos (a0.1 - a.1)
  let P := atan2 (cδ0 * sα0α) (sδ0 * cδ - cδ0 * sδ * cα0α)
  (Bp, P, aEdge, bEdge)

/-- The outputs of `Ring`. -/
structure RingOut where
  B : ℝ
  Bp : ℝ
  ΔU : ℝ
  P : ℝ
  aEdge : ℝ
  bEdge : ℝ

/-- `saturnring.Ring`: runs `f1`, then `f2` on the state `f1` produced. -/
noncomputable def Ring (c : Collab) (jde : ℝ) (earth saturn : ℝ → ℝ × ℝ × ℝ) :
    RingOut :=
  let r1 := f1 c jde earth saturn
  let r2 := f2 c jde r1.2.2
  { B := r1.2.1, Bp := r2.1, ΔU := r1.1
    P := r2.2.1, aEdge := r2.2.2.1, bEdge := r2.2.2.2 }

/-- `saturnring.UB`: runs only `f1` and discards the state. -/
noncomputable def UB (c : Collab) (jde : ℝ) (earth saturn : ℝ → ℝ × ℝ × ℝ) :
    ℝ × ℝ :=
  ((f1 c jde earth saturn).1, (f1 c jde earth saturn).2.1)

end saturnring

/-! ### Generic facts about the iterative loop -/

/-- The loop fails exactly when every one of the first `n` successive-iterate
differences is at least the tolerance. -/
theorem solveGo_eq_none_iff (step : ℝ → ℝ) (tol E0 : ℝ) (n : ℕ) :
    solveGo step tol E0 n = none ↔
      ∀ k < n, tol ≤ |step^[k + 1] E0 - step^[k] E0| := by
  induction n generalizing E0 with
  | zero => simp [solveGo]
  | succ n ih =>
    rw [solveGo]
    by_cases h : |step E0 - E0| < tol
    · simp only [if_pos h]
      constructor
      · intro hc
        exact absurd hc (by simp)
      · intro hall
        have := hall 0 (Nat.succ_pos n)
        simp only [Function.iterate_one, Function.iterate_zero, id_eq] at this
        exact absurd h (not_lt.mpr this)
    · simp only [if_neg h]
      rw [ih]
      constructor
      · intro hall k hk
        cases k with
        | zero =>
          simpa using not_lt.mp h
        | succ k =>
          have := hall k (Nat.lt_of_succ_lt_succ hk)
          simpa [Function.iterate_succ_apply] using this
      · intro hall k hk
        have := hall (k + 1) (Nat.succ_lt_succ hk)
        simpa [Function.iterate_succ_apply] using this

/-- A successful answer is the image of an iterate under one more update
step, with the successive-iterate difference below tolerance. -/
theorem solveGo_eq_some (step : ℝ → ℝ) (tol E0 : ℝ) (n : ℕ) (E : ℝ)
    (h : solveGo step tol E0 n = some E) :
    ∃ Ep, E = step Ep ∧ |step Ep - Ep| < tol := by
  induction n generalizing E0 with
  | zero => simp [solveGo] at h
  | succ n ih =>
    rw [solveGo] at h
    by_cases hc : |step E0 - E0| < tol
    · rw [if_pos hc] at h
      exact ⟨E0, (Option.some_inj.mp h).symm, hc⟩
    · rw [if_neg hc] at h
      exact ih _ h

/-! ### Mean-value bounds for sine and cosine -/

/-- A point of the closed interval between `b` and `a` is within `|a - b|`
of the endpoint `b`. -/
theorem abs_sub_le_of_mem_uIcc (x a b : ℝ) (hx : x ∈ Set.uIcc b a) :
    |x - b| ≤ |a - b| := by
  rcases le_total b a with h | h
  · rw [Set.uIcc_of_le h] at hx
    rw [abs_of_nonneg (by linarith [hx.1]), abs_of_nonneg (by linarith)]
    linarith [hx.2]
  · rw [Set.uIcc_of_ge h] at hx
    rw [abs_of_nonpos (by linarith [hx.2]), abs_of_nonpos (by linarith)]
    linarith [hx.1]

/-- Mean-value inequality for a globally differentiable real function whose
derivative is bounded on the segment between the two points. -/
theorem mvt_abs_le (f f' : ℝ → ℝ) (a b C : ℝ)
    (hder : ∀ x, HasDerivAt f (f' x) x)
    (hC : ∀ x ∈ Set.uIcc a b, |f' x| ≤ C) :
    |f b - f a| ≤ C * |b - a| := by
  have key : ∀ u v : ℝ, u < v → (∀ x ∈ Set.uIcc u v, |f' x| ≤ C) →
      |f v - f u| ≤ C * |v - u| := by
    intro u v huv hCu
    obtain ⟨c, hc, hslope⟩ := exists_hasDerivAt_eq_slope f f' huv
      (fun x _ => (hder x).continuousAt.continuousWithinAt)
      (fun x _ => hder x)
    have hvu : v - u ≠ 0 := sub_ne_zero.mpr huv.ne'
    have heq : f v - f u = f' c * (v - u) := by
      field_simp at hslope
      linarith [hslope]
    have hcC : |f' c| ≤ C := hCu c (by
      have := Set.Ioo_subset_Icc_self hc
      rw [Set.uIcc_of_le huv.le]
      exact this)
    calc |f v - f u| = |f' c| * |v - u| := by rw [heq, abs_mul]
      _ ≤ C * |v - u| := by
          apply mul_le_mul_of_nonneg_right hcC (abs_nonneg _)
  rcases lt_trichotomy a b with h | h | h
  · exact key a b h hC
  · subst h
    simp only [sub_self, abs_zero, mul_zero, le_refl]
  · have := key b a h (fun x hx => hC x (by rwa [Set.uIcc_comm] at hx))
    rw [abs_sub_comm (f a) (f b), abs_sub_comm a b] at this
    exact this

/-- Sine is 1-Lipschitz. -/
theorem abs_sin_sub_sin_le (a b : ℝ) : |Real.sin a - Real.sin b| ≤ |a - b| := by
  have := mvt_abs_le Real.sin Real.cos b a 1
    (fun x => Real.hasDerivAt_sin x) (fun x _ => Real.abs_cos_le_one x)
  simpa using this

/-- Cosine is 1-Lipschitz. -/
theorem abs_cos_sub_cos_le (a b : ℝ) : |Real.cos a - Real.cos b| ≤ |a - b| := by
  have := mvt_abs_le Real.cos (fun x => -Real.sin x) b a 1
    (fun x => Real.hasDerivAt_cos x)
    (fun x _ => by rw [abs_neg]; exact Real.abs_sin_le_one x)
  simpa using this

/-- First-order Taylor bound for sine: the linearization error at `b` is at
most the square of the distance. -/
theorem sin_taylor_quad (a b : ℝ) :
    |Real.sin a - Real.sin b - (a - b) * Real.cos b| ≤ (a - b) ^ 2 := by
  have hder : ∀ x, HasDerivAt (fun y => Real.sin y - y * Real.cos b)
      (Real.cos x - Real.cos b) x := by
    intro x
    have h1 := (Real.hasDerivAt_sin x).sub ((hasDerivAt_id x).mul_const (Real.cos b))
    simpa using h1
  have hC : ∀ x ∈ Set.uIcc b a, |Real.cos x - Real.cos b| ≤ |a - b| := by
    intro x hx
    exact le_trans (abs_cos_sub_cos_le x b) (abs_sub_le_of_mem_uIcc x a b hx)
  have := mvt_abs_le (fun y => Real.sin y - y * Real.cos b)
    (fun x => Real.cos x - Real.cos b) b a (|a - b|) hder hC
  have heq : Real.sin a - a * Real.cos b - (Real.sin b - b * Real.cos b)
      = Real.sin a - Real.sin b - (a - b) * Real.cos b := by ring
  rw [heq] at this
  calc |Real.sin a - Real.sin b - (a - b) * Real.cos b| ≤ |a - b| * |a - b| := this
    _ = (a - b) ^ 2 := by rw [← abs_mul, ← sq, abs_sq]

/-! ### Residual bounds for the update rules -/

/-- After one fixed-point update the residual of Kepler's equation is at most
`e` times the successive-iterate difference. -/
theorem fixpoint_residual (e M Ep : ℝ) (he : 0 ≤ e) :
    |keplerF e M (fixpointStep e M Ep)| ≤ e * |fixpointStep e M Ep - Ep| := by
  have h1 : keplerF e M (fixpointStep e M Ep)
      = e * (Real.sin Ep - Real.sin (fixpointStep e M Ep)) := by
    simp only [keplerF, fixpointStep]
    ring
  rw [h1, abs_mul, abs_of_nonneg he]
  have h2 : |Real.sin Ep - Real.sin (fixpointStep e M Ep)|
      ≤ |fixpointStep e M Ep - Ep| := by
    rw [abs_sub_comm (fixpointStep e M Ep)]
    exact abs_sin_sub_sin_le Ep (fixpointStep e M Ep)
  exact mul_le_mul_of_nonneg_left h2 he

/-- The denominator of the Newton update is bounded below by `1 - e`. -/
theorem newton_denom_ge (e E : ℝ) (he : 0 ≤ e) :
    1 - e ≤ 1 - e * Real.cos E := by
  have := mul_le_mul_of_nonneg_left (Real.cos_le_one E) he
  linarith

/-- After one Newton update the residual of Kepler's equation is at most `e`
times the square of the successive-iterate difference. -/
theorem newton_residual (e M Ep : ℝ) (he : 0 ≤ e) (hlt : e < 1) :
    |keplerF e M (newtonStep e M Ep)| ≤ e * (newtonStep e M Ep - Ep) ^ 2 := by
  set D : ℝ := 1 - e * Real.cos Ep with hD
  have hDpos : 0 < D := lt_of_lt_of_le (by linarith) (newton_denom_ge e Ep he)
  set Δ : ℝ := (Ep - e * Real.sin Ep - M) / D with hΔ
  have hstep : newtonStep e M Ep = Ep - Δ := rfl
  have hres : keplerF e M Ep = Δ * D := by
    rw [hΔ, div_mul_cancel₀ _ hDpos.ne']
    rfl
  have hkey : keplerF e M (Ep - Δ) =
      -(e * (Real.sin (Ep - Δ) - Real.sin Ep - (Ep - Δ - Ep) * Real.cos Ep)) := by
    have hF : keplerF e M Ep = Ep - e * Real.sin Ep - M := rfl
    have : keplerF e M (Ep - Δ) =
        keplerF e M Ep - Δ + e * (Real.sin Ep - Real.sin (Ep - Δ)) := by
      simp only [keplerF]
      ring
    rw [this, hres, hD]
    ring
  rw [hstep, hkey, abs_neg, abs_mul, abs_of_nonneg he]
  have hq := sin_taylor_quad (Ep - Δ) Ep
  have hsq : (Ep - Δ - Ep) ^ 2 = (Ep - Δ - Ep) ^ 2 := rfl
  calc e * |Real.sin (Ep - Δ) - Real.sin Ep - (Ep - Δ - Ep) * Real.cos Ep|
      ≤ e * (Ep - Δ - Ep) ^ 2 := mul_le_mul_of_nonneg_left hq he
    _ = e * (Ep - Δ - Ep) ^ 2 := rfl

/-- The residual function is increasingly monotone with explicit slope
bounds `1 - e` and `1 + e`. -/
theorem keplerF_slope (e M x y : ℝ) (he : 0 ≤ e) (hxy : x ≤ y) :
    (1 - e) * (y - x) ≤ keplerF e M y - keplerF e M x ∧
      keplerF e M y - keplerF e M x ≤ (1 + e) * (y - x) := by
  have hdiff : keplerF e M y - keplerF e M x
      = (y - x) - e * (Real.sin y - Real.sin x) := by
    simp only [keplerF]; ring
  have hsin : |e * (Real.sin y - Real.sin x)| ≤ e * (y - x) := by
    rw [abs_mul, abs_of_nonneg he]
    have := abs_sin_sub_sin_le y x
    have h2 : |y - x| = y - x := abs_of_nonneg (by linarith)
    rw [h2] at this
    exact mul_le_mul_of_nonneg_left this he
  rw [hdiff]
  constructor
  · nlinarith [abs_le.mp hsin]
  · nlinarith [abs_le.mp hsin]

theorem sinT_zero (n : ℕ) : sinT n 0 = 0 := by
  simp [sinT]

theorem cosT_zero (n : ℕ) : cosT (n + 1) 0 = 1 := by
  rw [cosT, Finset.sum_range_succ']
  simp

theorem hasDerivAt_sinT (n : ℕ) (x : ℝ) :
    HasDerivAt (fun y => sinT n y) (cosT n x) x := by
  have hterm : ∀ i ∈ Finset.range n, HasDerivAt
      (fun y : ℝ => (-1) ^ i * y ^ (2 * i + 1) / (Nat.factorial (2 * i + 1) : ℝ))
      ((-1 : ℝ) ^ i * x ^ (2 * i) / (Nat.factorial (2 * i) : ℝ)) x := by
    intro i _
    have h1 : HasDerivAt (fun y : ℝ => y ^ (2 * i + 1))
        ((2 * i + 1) * x ^ (2 * i)) x := by
      simpa using hasDerivAt_pow (2 * i + 1) x
    have h2 := (h1.const_mul ((-1 : ℝ) ^ i)).div_const (Nat.factorial (2 * i + 1) : ℝ)
    convert h2 using 1
    rw [Nat.factorial_succ]
    have hnz : (Nat.factorial (2 * i) : ℝ) ≠ 0 :=
      Nat.cast_ne_zero.mpr (Nat.factorial_ne_zero _)
    push_cast
    field_simp
    ring
  have hsum := HasDerivAt.sum hterm
  simpa [sinT, cosT] using hsum

theorem hasDerivAt_cosT (n : ℕ) (x : ℝ) :
    HasDerivAt (fun y => cosT (n + 1) y) (-sinT n x) x := by
  have key : (fun y : ℝ => cosT (n + 1) y) = fun y : ℝ =>
      (∑ i ∈ Finset.range n,
        (-1) ^ (i + 1) * y ^ (2 * (i + 1)) / (Nat.factorial (2 * (i + 1)) : ℝ)) + 1 := by
    funext y
    rw [cosT, Finset.sum_range_succ']
    norm_num
  have hterm : ∀ i ∈ Finset.range n, HasDerivAt
      (fun y : ℝ => (-1) ^ (i + 1) * y ^ (2 * (i + 1)) / (Nat.factorial (2 * (i + 1)) : ℝ))
      (-((-1 : ℝ) ^ i * x ^ (2 * i + 1) / (Nat.factorial (2 * i + 1) : ℝ))) x := by
    intro i _
    have h1 : HasDerivAt (fun y : ℝ => y ^ (2 * (i + 1)))
        ((2 * (i + 1)) * x ^ (2 * (i + 1) - 1)) x := by
      simpa using hasDerivAt_pow (2 * (i + 1)) x
    have h2 := (h1.const_mul ((-1 : ℝ) ^ (i + 1))).div_const
      (Nat.factorial (2 * (i + 1)) : ℝ)
    convert h2 using 1
    have he : 2 * (i + 1) - 1 = 2 * i + 1 := by omega
    rw [he]
    have hf : Nat.factorial (2 * (i + 1)) = (2 * (i + 1)) * Nat.factorial (2 * i + 1) := by
      have h2i : 2 * (i + 1) = (2 * i + 1) + 1 := by omega
      rw [h2i, Nat.factorial_succ]
    rw [hf]
    have hnz : (Nat.factorial (2 * i + 1) : ℝ) ≠ 0 :=
      Nat.cast_ne_zero.mpr (Nat.factorial_ne_zero _)
    have hp : (-1 : ℝ) ^ (i + 1) = -(-1 : ℝ) ^ i := by
      rw [pow_succ]; ring
    rw [hp]
    push_cast
    field_simp
    ring
  have hsum := (HasDerivAt.sum hterm).add_const (1 : ℝ)
  rw [key]
  simpa [sinT, Finset.sum_neg_distrib] using hsum

/-- A function vanishing at `0` with nonnegative derivative on `[0, ∞)` is
nonnegative on `[0, ∞)`. -/
theorem nonneg_of_hasDerivAt_nonneg (f f' : ℝ → ℝ)
    (hder : ∀ x, HasDerivAt f (f' x) x) (h0 : f 0 = 0)
    (hpos : ∀ x, 0 ≤ x → 0 ≤ f' x) : ∀ x, 0 ≤ x → 0 ≤ f x := by
  intro x hx
  rcases eq_or_lt_of_le hx with h | h
  · rw [← h, h0]
  · obtain ⟨c, hc, hs⟩ := exists_hasDerivAt_eq_slope f f' h
      (fun y _ => (hder y).continuousAt.continuousWithinAt)
      (fun y _ => hder y)
    have hx0 : x - 0 ≠ 0 := by linarith
    have heq : f x - f 0 = f' c * (x - 0) := by
      field_simp at hs
      linarith [hs]
    have hcpos := hpos c (le_of_lt hc.1)
    nlinarith

/-- One cosine rung of the alternating ladder. -/
theorem ladder_step_cos (n : ℕ)
    (hs : ∀ x, 0 ≤ x → 0 ≤ (-1) ^ (n + 1) * (Real.sin x - sinT (n + 1) x)) :
    ∀ x, 0 ≤ x → 0 ≤ (-1) ^ (n + 2) * (Real.cos x - cosT (n + 2) x) := by
  apply nonneg_of_hasDerivAt_nonneg _
    (fun x => (-1) ^ (n + 2) * (-Real.sin x - -sinT (n + 1) x))
  · intro x
    exact ((Real.hasDerivAt_cos x).sub (hasDerivAt_cosT (n + 1) x)).const_mul _
  · rw [Real.cos_zero, cosT_zero]
    ring
  · intro x hx
    have h := hs x hx
    have hsgn : (-1 : ℝ) ^ (n + 2) * (-Real.sin x - -sinT (n + 1) x)
        = (-1) ^ (n + 1) * (Real.sin x - sinT (n + 1) x) := by
      rw [pow_succ]
      ring
    rw [hsgn]
    exact h

/-- One sine rung of the alternating ladder. -/
theorem ladder_step_sin (n : ℕ)
    (hc : ∀ x, 0 ≤ x → 0 ≤ (-1) ^ (n + 1) * (Real.cos x - cosT (n + 1) x)) :
    ∀ x, 0 ≤ x → 0 ≤ (-1) ^ (n + 1) * (Real.sin x - sinT (n + 1) x) := by
  apply nonneg_of_hasDerivAt_nonneg _
    (fun x => (-1) ^ (n + 1) * (Real.cos x - cosT (n + 1) x))
  · intro x
    exact ((Real.hasDerivAt_sin x).sub (hasDerivAt_sinT (n + 1) x)).const_mul _
  · rw [Real.sin_zero, sinT_zero]
    ring
  · exact hc

/-- The alternating ladder: each partial sum of the sine and cosine series
bounds the function from the side given by the parity of the first omitted
term. -/
theorem taylor_ladder (n : ℕ) :
    (∀ x, 0 ≤ x → 0 ≤ (-1) ^ (n + 1) * (Real.sin x - sinT (n + 1) x)) ∧
    (∀ x, 0 ≤ x → 0 ≤ (-1) ^ (n + 1) * (Real.cos x - cosT (n + 1) x)) := by
  induction n with
  | zero =>
    have hcos : ∀ x, 0 ≤ x → 0 ≤ (-1 : ℝ) ^ (0 + 1) * (Real.cos x - cosT (0 + 1) x) := by
      intro x _
      have h1 : cosT 1 x = 1 := by
        simp [cosT]
      rw [h1]
      have := Real.cos_le_one x
      norm_num
      linarith
    exact ⟨ladder_step_sin 0 hcos, hcos⟩
  | succ n ih =>
    have hcos := ladder_step_cos n ih.1
    exact ⟨ladder_step_sin (n + 1) hcos, hcos⟩

theorem sin_le_sinT_odd (k : ℕ) (x : ℝ) (hx : 0 ≤ x) :
    Real.sin x ≤ sinT (2 * k + 1) x := by
  have h := (taylor_ladder (2 * k)).1 x hx
  have hp : (-1 : ℝ) ^ (2 * k + 1) = -1 := Odd.neg_one_pow ⟨k, by ring⟩
  rw [hp] at h
  linarith

theorem sinT_le_sin_even (k : ℕ) (x : ℝ) (hx : 0 ≤ x) :
    sinT (2 * k + 2) x ≤ Real.sin x := by
  have h := (taylor_ladder (2 * k + 1)).1 x hx
  have hp : (-1 : ℝ) ^ (2 * k + 1 + 1) = 1 := Even.neg_one_pow ⟨k + 1, by ring⟩
  rw [hp] at h
  linarith

theorem cos_le_cosT_odd (k : ℕ) (x : ℝ) (hx : 0 ≤ x) :
    Real.cos x ≤ cosT (2 * k + 1) x := by
  have h := (taylor_ladder (2 * k)).2 x hx
  have hp : (-1 : ℝ) ^ (2 * k + 1) = -1 := Odd.neg_one_pow ⟨k, by ring⟩
  rw [hp] at h
  linarith

theorem cosT_le_cos_even (k : ℕ) (x : ℝ) (hx : 0 ≤ x) :
    cosT (2 * k + 2) x ≤ Real.cos x := by
  have h := (taylor_ladder (2 * k + 1)).2 x hx
  have hp : (-1 : ℝ) ^ (2 * k + 1 + 1) = 1 := Even.neg_one_pow ⟨k + 1, by ring⟩
  rw [hp] at h
  linarith

/-! ### The bounded search -/

/-- The bisection loop preserves the sign bracket, stays inside the initial
interval, and halves the width at each step. -/
theorem bisect_spec (f : ℝ → ℝ) (k : ℕ) : ∀ lo hi : ℝ, f lo ≤ 0 → 0 ≤ f hi → lo ≤ hi →
    f (bisect f lo hi k).1 ≤ 0 ∧ 0 ≤ f (bisect f lo hi k).2 ∧
    lo ≤ (bisect f lo hi k).1 ∧ (bisect f lo hi k).2 ≤ hi ∧
    (bisect f lo hi k).1 ≤ (bisect f lo hi k).2 ∧
    (bisect f lo hi k).2 - (bisect f lo hi k).1 = (hi - lo) / 2 ^ k := by
  induction k with
  | zero =>
    intro lo hi h1 h2 hle
    simp only [bisect, pow_zero]
    exact ⟨h1, h2, le_refl _, le_refl _, hle, by ring⟩
  | succ k ih =>
    intro lo hi h1 h2 hle
    have hmid1 : lo ≤ (lo + hi) / 2 := by linarith
    have hmid2 : (lo + hi) / 2 ≤ hi := by linarith
    rw [bisect]
    by_cases hm : f ((lo + hi) / 2) ≤ 0
    · rw [if_pos hm]
      obtain ⟨a1, a2, a3, a4, a5, a6⟩ := ih ((lo + hi) / 2) hi hm h2 hmid2
      refine ⟨a1, a2, le_trans hmid1 a3, a4, a5, ?_⟩
      rw [a6]
      field_simp
      ring
    · rw [if_neg hm]
      have hm' : 0 ≤ f ((lo + hi) / 2) := le_of_lt (not_le.mp hm)
      obtain ⟨a1, a2, a3, a4, a5, a6⟩ := ih lo ((lo + hi) / 2) h1 hm' hmid1
      refine ⟨a1, a2, a3, le_trans a4 hmid2, a5, ?_⟩
      rw [a6]
      field_simp
      ring

/-- The initial bracket `[M-1, M+1]` of the bounded search encloses a sign
change of the residual whenever `0 ≤ e < 1`. -/
theorem kepler3_bracket (e M : ℝ) (he : 0 ≤ e) (hlt : e < 1) :
    keplerF e M (M - 1) ≤ 0 ∧ 0 ≤ keplerF e M (M + 1) := by
  constructor
  · have h1 : keplerF e M (M - 1) = -1 - e * Real.sin (M - 1) := by
      simp only [keplerF]; ring
    have h2 : e * Real.sin (M - 1) ≥ -e := by
      nlinarith [Real.neg_one_le_sin (M - 1)]
    rw [h1]; linarith
  · have h1 : keplerF e M (M + 1) = 1 - e * Real.sin (M + 1) := by
      simp only [keplerF]; ring
    have h2 : e * Real.sin (M + 1) ≤ e := by
      nlinarith [Real.sin_le_one (M + 1)]
    rw [h1]; linarith

/-- The bounded search always lands within its stated accuracy of the
residual's zero: the returned midpoint has residual at most `tol3`. -/
theorem Kepler3_residual (e M : ℝ) (he : 0 ≤ e) (hlt : e < 1) :
    |keplerF e M (Kepler3 e M)| ≤ tol3 := by
  obtain ⟨hbl, hbr⟩ := kepler3_bracket e M he hlt
  obtain ⟨a1, a2, a3, a4, a5, a6⟩ :=
    bisect_spec (keplerF e M) kepler3Steps (M - 1) (M + 1) hbl hbr (by linarith)
  set lo : ℝ := (bisect (keplerF e M) (M - 1) (M + 1) kepler3Steps).1
  set hi : ℝ := (bisect (keplerF e M) (M - 1) (M + 1) kepler3Steps).2
  have hwidth : hi - lo = 2 / 2 ^ kepler3Steps := by
    rw [a6]; norm_num
  have hmid : Kepler3 e M = (lo + hi) / 2 := rfl
  have hml : lo ≤ (lo + hi) / 2 := by linarith
  have hmr : (lo + hi) / 2 ≤ hi := by linarith
  have hup := (keplerF_slope e M lo ((lo + hi) / 2) he hml).2
  have hlow := (keplerF_slope e M ((lo + hi) / 2) hi he hmr).2
  have hsz : (lo + hi) / 2 - lo = 1 / 2 ^ kepler3Steps := by
    have : (lo + hi) / 2 - lo = (hi - lo) / 2 := by ring
    rw [this, hwidth]; ring
  have hsz2 : hi - (lo + hi) / 2 = 1 / 2 ^ kepler3Steps := by
    have : hi - (lo + hi) / 2 = (hi - lo) / 2 := by ring
    rw [this, hwidth]; ring
  rw [hmid]
  rw [abs_le]
  have hpow : (0:ℝ) < 2 ^ kepler3Steps := by positivity
  have htol : tol3 = 2 / 2 ^ kepler3Steps := by
    rw [tol3, kepler3Steps]
    norm_num
  constructor
  · have : keplerF e M hi - keplerF e M ((lo + hi) / 2)
        ≤ (1 + e) * (hi - (lo + hi) / 2) := hlow
    rw [hsz2] at this
    rw [htol]
    have hq : (0:ℝ) < 1 / 2 ^ kepler3Steps := by positivity
    nlinarith
  · have : keplerF e M ((lo + hi) / 2) - keplerF e M lo ≤ (1 + e) * ((lo + hi) / 2 - lo) := hup
    rw [hsz] at this
    rw [htol]
    have hq : (0:ℝ) < 1 / 2 ^ kepler3Steps := by positivity
    nlinarith

/-! ### Claim C1 -/

/-- C1: for every eccentricity `0 ≤ e < 1` and every mean anomaly `M`,
whenever an elliptical solver (Kepler1, Kepler2, Kepler2a, Kepler2b, or
Kepler3) returns an eccentric anomaly `E` successfully, substituting it
back gives `E - e sin E = M` within that algorithm's stated tolerance
(`tol1` for the fixed point, `tol2` for the Newton variants, `tol3` for the
bounded search, which always answers). -/
theorem C1_round_trip (e M : ℝ) (he : 0 ≤ e) (hlt : e < 1) :
    (∀ n E, Kepler1 e M n = some E → |E - e * Real.sin E - M| ≤ tol1) ∧
    (∀ n E, Kepler2 e M n = some E → |E - e * Real.sin E - M| ≤ tol2) ∧
    (∀ n E, Kepler2a e M n = some E → |E - e * Real.sin E - M| ≤ tol2) ∧
    (∀ n E, Kepler2b e M n = some E → |E - e * Real.sin E - M| ≤ tol2) ∧
    |Kepler3 e M - e * Real.sin (Kepler3 e M) - M| ≤ tol3 := by
  have hnewton : ∀ start n E, solveGo (newtonStep e M) tol2 start n = some E →
      |E - e * Real.sin E - M| ≤ tol2 := by
    intro start n E h
    obtain ⟨Ep, hE, hd⟩ := solveGo_eq_some _ _ _ _ _ h
    have hres := newton_residual e M Ep he hlt
    have habs : (newtonStep e M Ep - Ep) ^ 2 < tol2 ^ 2 := by
      rw [← sq_abs]
      have h0 : (0:ℝ) < tol2 := by rw [tol2]; norm_num
      exact pow_lt_pow_left₀ hd (abs_nonneg _) (by norm_num)
    have hF : keplerF e M E = E - e * Real.sin E - M := rfl
    rw [← hF, hE]
    have h1 : e * (newtonStep e M Ep - Ep) ^ 2 ≤ e * tol2 ^ 2 := by
      nlinarith [sq_nonneg (newtonStep e M Ep - Ep)]
    have h2 : e * tol2 ^ 2 ≤ tol2 := by
      rw [tol2]
      nlinarith
    linarith [hres]
  refine ⟨?_, hnewton M, hnewton Real.pi, hnewton Real.pi, ?_⟩
  · intro n E h
    obtain ⟨Ep, hE, hd⟩ := solveGo_eq_some _ _ _ _ _ h
    have hres := fixpoint_residual e M Ep he
    have hF : keplerF e M E = E - e * Real.sin E - M := rfl
    rw [← hF, hE]
    have h1 : e * |fixpointStep e M Ep - Ep| ≤ e * tol1 := by
      nlinarith [abs_nonneg (fixpointStep e M Ep - Ep)]
    have h2 : e * tol1 ≤ tol1 := by
      rw [tol1]
      nlinarith
    linarith [hres]
  · have := Kepler3_residual e M he hlt
    have hF : keplerF e M (Kepler3 e M)
        = Kepler3 e M - e * Real.sin (Kepler3 e M) - M := rfl
    rwa [hF] at this

/-- Witness for C1 at the concrete input `e = 0`, `M = 0`, where `Kepler1`
succeeds in one iteration with `E = 0`. -/
theorem C1_round_trip_witness : |(0:ℝ) - 0 * Real.sin 0 - 0| ≤ tol1 := by
  have hsome : Kepler1 0 0 1 = some 0 := by
    have hstep : fixpointStep 0 0 0 = 0 := by
      simp [fixpointStep]
    show solveGo (fixpointStep 0 0) tol1 0 (0 + 1) = some 0
    rw [solveGo, hstep]
    rw [if_pos (by rw [tol1]; norm_num)]
  exact (C1_round_trip 0 0 le_rfl one_pos).1 1 0 hsome

/-! ### Claim C2 -/

/-- C2: each iterative elliptical solver returns the non-convergence error
exactly when the iteration budget `n` is exhausted with every
successive-iterate difference still at least the internal tolerance — never
a silent approximate answer; for `e` very close to 1 and `n = 1` the
fixed-point solver `Kepler1` reports non-convergence; and a non-convergence
result is distinguishable from a successful result whose eccentric anomaly
happens to be zero. -/
theorem C2_budget_exhaustion :
    (∀ e M : ℝ, ∀ n, Kepler1 e M n = none ↔
      ∀ k < n, tol1 ≤ |(fixpointStep e M)^[k + 1] M - (fixpointStep e M)^[k] M|) ∧
    (∀ e M : ℝ, ∀ n, Kepler2 e M n = none ↔
      ∀ k < n, tol2 ≤ |(newtonStep e M)^[k + 1] M - (newtonStep e M)^[k] M|) ∧
    (∀ e M : ℝ, ∀ n, Kepler2a e M n = none ↔
      ∀ k < n, tol2 ≤ |(newtonStep e M)^[k + 1] Real.pi - (newtonStep e M)^[k] Real.pi|) ∧
    (∀ e M : ℝ, ∀ n, Kepler2b e M n = none ↔
      ∀ k < n, tol2 ≤ |(newtonStep e M)^[k + 1] Real.pi - (newtonStep e M)^[k] Real.pi|) ∧
    Kepler1 (1 - 1e-6) (Real.pi / 2) 1 = none ∧
    (∀ e M : ℝ, ∀ n, ∀ E : ℝ, Kepler1 e M n = some E → Kepler1 e M n ≠ none) := by
  refine ⟨fun e M n => solveGo_eq_none_iff _ _ _ _,
    fun e M n => solveGo_eq_none_iff _ _ _ _,
    fun e M n => solveGo_eq_none_iff _ _ _ _,
    fun e M n => solveGo_eq_none_iff _ _ _ _, ?_, ?_⟩
  · show solveGo (fixpointStep (1 - 1e-6) (Real.pi / 2)) tol1 (Real.pi / 2) (0 + 1) = none
    rw [solveGo]
    have hstep : fixpointStep (1 - 1e-6) (Real.pi / 2) (Real.pi / 2)
        = Real.pi / 2 + (1 - 1e-6) := by
      rw [fixpointStep, Real.sin_pi_div_two]
      ring
    rw [hstep]
    rw [if_neg ?_]
    · rfl
    · have h1 : Real.pi / 2 + (1 - 1e-6) - Real.pi / 2 = 1 - 1e-6 := by ring
      rw [h1, abs_of_nonneg (by norm_num), tol1]
      norm_num
  · intro e M n E h hn
    rw [h] at hn
    exact Option.noConfusion hn

/-! ### Claim C8 -/

/-- C8 counterexample: at `e = 0.99`, `M = 0.03` the first standard-start
Newton step (the iterates of `Kepler2`) strictly increases the residual
magnitude of Kepler's equation. -/
theorem C8_counterexample :
    |keplerF (99 / 100) (3 / 100) ((newtonStep (99 / 100) (3 / 100))^[1] (3 / 100))| >
      |keplerF (99 / 100) (3 / 100) ((newtonStep (99 / 100) (3 / 100))^[0] (3 / 100))| := by
  have hx : (0 : ℝ) ≤ 3 / 100 := by norm_num
  have hs_lo : (29995 : ℝ) / 1000000 ≤ Real.sin (3 / 100) := by
    have h := sinT_le_sin_even 0 (3 / 100) hx
    have hev : sinT 2 ((3 : ℝ) / 100) = 3 / 100 - (3 / 100) ^ 3 / 6 := by
      simp [sinT, Finset.sum_range_succ, Nat.factorial]
      ring
    rw [show 2 * 0 + 2 = 2 by norm_num, hev] at h
    nlinarith
  have hs_hi : Real.sin (3 / 100) ≤ 3 / 100 := by
    have h := sin_le_sinT_odd 0 (3 / 100) hx
    have hev : sinT 1 ((3 : ℝ) / 100) = 3 / 100 := by
      simp [sinT, Finset.sum_range_succ, Nat.factorial]
    rw [show 2 * 0 + 1 = 1 by norm_num, hev] at h
    exact h
  have hc_lo : (99955 : ℝ) / 100000 ≤ Real.cos (3 / 100) := by
    have h := cosT_le_cos_even 0 (3 / 100) hx
    have hev : cosT 2 ((3 : ℝ) / 100) = 1 - (3 / 100) ^ 2 / 2 := by
      simp [cosT, Finset.sum_range_succ, Nat.factorial]
      ring
    rw [show 2 * 0 + 2 = 2 by norm_num, hev] at h
    nlinarith
  have hc_hi : Real.cos (3 / 100) ≤ 1 := Real.cos_le_one _
  simp only [Function.iterate_one, Function.iterate_zero, id_eq]
  set s : ℝ := Real.sin (3 / 100) with hs
  set c : ℝ := Real.cos (3 / 100) with hc
  have hD_lo : (1 : ℝ) / 100 ≤ 1 - 99 / 100 * c := by nlinarith
  have hD_hi : 1 - 99 / 100 * c ≤ (104455 : ℝ) / 10000000 := by nlinarith
  have hDpos : (0 : ℝ) < 1 - 99 / 100 * c := by nlinarith
  have hE0 : keplerF (99 / 100) (3 / 100) (3 / 100) = -(99 / 100 * s) := by
    rw [keplerF, ← hs]
    ring
  have hstep : newtonStep (99 / 100) (3 / 100) (3 / 100)
      = 3 / 100 + 99 / 100 * s / (1 - 99 / 100 * c) := by
    rw [newtonStep, ← hs, ← hc]
    rw [show (3 : ℝ) / 100 - 99 / 100 * s - 3 / 100 = -(99 / 100 * s) by ring]
    rw [neg_div, sub_neg_eq_add]
  have hratio : (284 : ℝ) / 100 ≤ 99 / 100 * s / (1 - 99 / 100 * c) := by
    rw [le_div_iff₀ hDpos]
    nlinarith
  have hE1_lo : (287 : ℝ) / 100 ≤ newtonStep (99 / 100) (3 / 100) (3 / 100) := by
    rw [hstep]
    linarith
  have hres1 : keplerF (99 / 100) (3 / 100) (newtonStep (99 / 100) (3 / 100) (3 / 100))
      ≥ 18 / 10 := by
    rw [keplerF]
    have hsin1 := Real.sin_le_one (newtonStep (99 / 100) (3 / 100) (3 / 100))
    nlinarith
  have habs0 : |keplerF (99 / 100) (3 / 100) (3 / 100)| ≤ 3 / 100 := by
    rw [hE0, abs_neg, abs_of_nonneg (by nlinarith)]
    nlinarith
  have habs1 : |keplerF (99 / 100) (3 / 100) (newtonStep (99 / 100) (3 / 100) (3 / 100))|
      ≥ 18 / 10 := le_trans hres1 (le_abs_self _)
  linarith

/-- C8 amended: a Newton step strictly decreases the residual magnitude of
Kepler's equation whenever the current residual is nonzero and the step size
`Δ` satisfies `e * |Δ| < 1 - e` — in particular throughout the terminal
phase of convergence; for large steps the residual can grow, as the
counterexample at `e = 0.99`, `M = 0.03` shows. -/
theorem C8_amended (e M E : ℝ) (he : 0 ≤ e) (hlt : e < 1)
    (hres : keplerF e M E ≠ 0)
    (hsmall : e * |newtonStep e M E - E| < 1 - e) :
    |keplerF e M (newtonStep e M E)| < |keplerF e M E| := by
  set D : ℝ := 1 - e * Real.cos E with hD
  have hDge : 1 - e ≤ D := newton_denom_ge e E he
  have hDpos : 0 < D := lt_of_lt_of_le (by linarith) hDge
  have hstep : newtonStep e M E - E = -(keplerF e M E / D) := by
    rw [newtonStep, keplerF, hD]
    ring
  have habsΔ : |newtonStep e M E - E| = |keplerF e M E| / D := by
    rw [hstep, abs_neg, abs_div, abs_of_pos hDpos]
  have hΔpos : 0 < |newtonStep e M E - E| := by
    rw [habsΔ]
    exact div_pos (abs_pos.mpr hres) hDpos
  have hFeq : |keplerF e M E| = |newtonStep e M E - E| * D := by
    rw [habsΔ]
    field_simp
  have hquad := newton_residual e M E he hlt
  have hsq : (newtonStep e M E - E) ^ 2 = |newtonStep e M E - E| ^ 2 := (sq_abs _).symm
  calc |keplerF e M (newtonStep e M E)|
      ≤ e * (newtonStep e M E - E) ^ 2 := hquad
    _ = (e * |newtonStep e M E - E|) * |newtonStep e M E - E| := by
        rw [hsq]; ring
    _ < (1 - e) * |newtonStep e M E - E| := by
        exact mul_lt_mul_of_pos_right hsmall hΔpos
    _ ≤ D * |newtonStep e M E - E| :=
        mul_le_mul_of_nonneg_right hDge (le_of_lt hΔpos)
    _ = |keplerF e M E| := by rw [hFeq]; ring

/-- Witness for the amended C8 at `e = 1/2`, `M = 0`, `E = 1/2`: the Newton
step there strictly decreases the residual magnitude. -/
theorem C8_amended_witness :
    |keplerF (1 / 2) 0 (newtonStep (1 / 2) 0 (1 / 2))| < |keplerF (1 / 2) 0 (1 / 2)| := by
  have hsinlt : Real.sin (1 / 2) < 1 / 2 := Real.sin_lt (by norm_num)
  have hsinpos : 0 < Real.sin (1 / 2) :=
    Real.sin_pos_of_pos_of_lt_pi (by norm_num) (by linarith [Real.pi_gt_three])
  have hcos : Real.cos (1 / 2) ≤ 1 := Real.cos_le_one _
  have hFval : keplerF (1 / 2) 0 (1 / 2) = 1 / 2 - 1 / 2 * Real.sin (1 / 2) := by
    rw [keplerF]
    ring
  have hFpos : 0 < keplerF (1 / 2) 0 (1 / 2) := by
    rw [hFval]
    nlinarith
  have hFlt : keplerF (1 / 2) 0 (1 / 2) < 1 / 2 := by
    rw [hFval]
    nlinarith
  have hD : (1 : ℝ) / 2 ≤ 1 - 1 / 2 * Real.cos (1 / 2) := by nlinarith
  have hDpos : (0 : ℝ) < 1 - 1 / 2 * Real.cos (1 / 2) := by nlinarith
  have hstep : newtonStep (1 / 2) 0 (1 / 2) - 1 / 2
      = -(keplerF (1 / 2) 0 (1 / 2) / (1 - 1 / 2 * Real.cos (1 / 2))) := by
    rw [newtonStep, keplerF]
    ring
  have habs : |newtonStep (1 / 2) 0 (1 / 2) - 1 / 2|
      = keplerF (1 / 2) 0 (1 / 2) / (1 - 1 / 2 * Real.cos (1 / 2)) := by
    rw [hstep, abs_neg, abs_of_pos (div_pos hFpos hDpos)]
  have hsmall : 1 / 2 * |newtonStep (1 / 2) 0 (1 / 2) - 1 / 2| < 1 - 1 / 2 := by
    rw [habs]
    have h1 : keplerF (1 / 2) 0 (1 / 2) / (1 - 1 / 2 * Real.cos (1 / 2))
        < 1 := by
      rw [div_lt_one hDpos]
      linarith
    linarith
  exact C8_amended (1 / 2) 0 (1 / 2) (by norm_num) (by norm_num) (ne_of_gt hFpos) hsmall

/-! ### Claim C7 -/

theorem barkerIter_zero (k : ℕ) : parabolic.barkerIter 0 k = 0 := by
  induction k with
  | zero => simp [parabolic.barkerIter]
  | succ k ih => simp [parabolic.barkerIter, ih]

/-- C7: for every parabolic Elements value with `PDis > 0`, evaluating
`AnomalyDistance` at `t = TimeP` (zero time since perihelion) yields true
anomaly `ν = 0` and radius vector `r = PDis`. -/
theorem C7_parabolic_idempotence (K : ℝ) (el : parabolic.Elements)
    (hP : 0 < el.PDis) :
    parabolic.AnomalyDistance K el el.TimeP = (0, el.PDis) := by
  have hW : K * (el.TimeP - el.TimeP) / (el.PDis * Real.sqrt el.PDis) = 0 := by
    rw [sub_self, mul_zero, zero_div]
  rw [parabolic.AnomalyDistance, hW, barkerIter_zero]
  simp [Real.arctan_zero]

/-- Witness for C7 at the concrete elements `TimeP = 0`, `PDis = 1`. -/
theorem C7_parabolic_idempotence_witness :
    parabolic.AnomalyDistance 1 ⟨0, 1⟩ 0 = (0, 1) :=
  C7_parabolic_idempotence 1 ⟨0, 1⟩ (by norm_num)


/-! ### Claim C9 -/

/-- C9: for every jde and every pair of planet position functions, `UB`
returns exactly the `ΔU` and `B` components of `Ring`: the first closure's
results do not depend on whether the second closure is subsequently
evaluated. -/
theorem C9_UB_eq_Ring (c : saturnring.Collab) (jde : ℝ)
    (earth saturn : ℝ → ℝ × ℝ × ℝ) :
    saturnring.UB c jde earth saturn
      = ((saturnring.Ring c jde earth saturn).ΔU,
          (saturnring.Ring c jde earth saturn).B) := rfl

/-! ### Claim C10 -/

/-- C10: `precess.Position` with zero proper motions agrees with
constructing a `Precessor` and applying `Precess` directly; `Precess`
computes the same result whether source and destination are the same struct
or distinct structs, and with distinct structs the source struct is left
unmodified. -/
theorem C10_position_eq_precess (horner : ℝ → List ℝ → ℝ) (csa : ℝ)
    (eqFrom : precess.Equatorial) (epochFrom epochTo : ℝ) :
    precess.Position horner csa eqFrom epochFrom epochTo 0 0
      = precess.Precess csa (precess.NewPrecessor horner epochFrom epochTo) eqFrom ∧
    (∀ (p : precess.Precessor) (cell : precess.Equatorial),
      precess.PrecessAliased csa p cell = precess.Precess csa p cell) ∧
    (∀ (p : precess.Precessor) (a b : precess.Equatorial),
      precess.PrecessDistinct csa p a b = (a, precess.Precess csa p a)) := by
  refine ⟨?_, fun p cell => rfl, fun p a b => rfl⟩
  show precess.PrecessAliased csa _ ⟨eqFrom.RA + 0 * _, eqFrom.Dec + 0 * _⟩ = _
  simp only [zero_mul, add_zero]
  rfl

/-! ### Quantitative convergence lemmas -/

/-- The fixed-point update is an `e`-contraction. -/
theorem fixpoint_lipschitz (e M x y : ℝ) (he : 0 ≤ e) :
    |fixpointStep e M x - fixpointStep e M y| ≤ e * |x - y| := by
  have h1 : fixpointStep e M x - fixpointStep e M y
      = e * (Real.sin x - Real.sin y) := by
    rw [fixpointStep, fixpointStep]
    ring
  rw [h1, abs_mul, abs_of_nonneg he]
  exact mul_le_mul_of_nonneg_left (abs_sin_sub_sin_le x y) he

/-- Quadratic decay of the Newton step sizes: the next step size, scaled by
`1 - e`, is at most `e` times the square of the current one. -/
theorem newton_sq_step (e M x : ℝ) (he : 0 ≤ e) (hlt : e < 1) :
    |newtonStep e M (newtonStep e M x) - newtonStep e M x| * (1 - e)
      ≤ e * (newtonStep e M x - x) ^ 2 := by
  set y := newtonStep e M x with hy
  have hres := newton_residual e M x he hlt
  have hD : 1 - e ≤ 1 - e * Real.cos y := newton_denom_ge e y he
  have hDpos : 0 < 1 - e * Real.cos y := lt_of_lt_of_le (by linarith) hD
  have hstep : newtonStep e M y - y = -(keplerF e M y / (1 - e * Real.cos y)) := by
    rw [newtonStep, keplerF]
    ring
  have habs : |newtonStep e M y - y|
      = |keplerF e M y| / (1 - e * Real.cos y) := by
    rw [hstep, abs_neg, abs_div, abs_of_pos hDpos]
  rw [habs]
  have h1 : |keplerF e M y| / (1 - e * Real.cos y) * (1 - e)
      ≤ |keplerF e M y| := by
    rw [div_mul_eq_mul_div, div_le_iff₀ hDpos]
    nlinarith [abs_nonneg (keplerF e M y)]
  linarith

/-- An answer whose residual is small lies close to any sign-change bracket
of the residual. -/
theorem near_bracket (e M x a b δ : ℝ) (he : 0 ≤ e) (hlt : e < 1)
    (hres : |keplerF e M x| ≤ δ)
    (ha : keplerF e M a ≤ 0) (hb : 0 ≤ keplerF e M b) :
    (1 - e) * (a - x) ≤ δ ∧ (1 - e) * (x - b) ≤ δ := by
  have hδ : 0 ≤ δ := le_trans (abs_nonneg _) hres
  constructor
  · rcases le_or_lt a x with h | h
    · nlinarith
    · have := (keplerF_slope e M x a he (le_of_lt h)).1
      have h2 := (abs_le.mp hres).1
      nlinarith
  · rcases le_or_lt x b with h | h
    · nlinarith
    · have := (keplerF_slope e M b x he (le_of_lt h)).1
      have h2 := (abs_le.mp hres).2
      nlinarith

/-! ### Sine enclosures at the literal inputs -/

theorem sinT_eval_a_low :
    (0.0967940847595 : ℝ) ≤ sinT 4 (0.096945871073 : ℝ) := by
  simp only [sinT, Finset.sum_range_succ, Finset.sum_range_zero, Nat.factorial]
  norm_num

theorem sinT_eval_b_high :
    sinT 5 (0.096945871080 : ℝ) ≤ (0.0967940847666 : ℝ) := by
  simp only [sinT, Finset.sum_range_succ, Finset.sum_range_zero, Nat.factorial]
  norm_num

/-- Lower bound on the sine at the lower bracket point of the `e = 0.1`,
`M = 5°` test case. -/
theorem sin_bracket_a_low :
    (0.0967940847595 : ℝ) ≤ Real.sin (0.096945871073 : ℝ) := by
  have h := sinT_le_sin_even 1 (0.096945871073 : ℝ) (by norm_num)
  rw [show 2 * 1 + 2 = 4 by norm_num] at h
  exact le_trans sinT_eval_a_low h

/-- Upper bound on the sine at the upper bracket point of the `e = 0.1`,
`M = 5°` test case. -/
theorem sin_bracket_b_high :
    Real.sin (0.096945871080 : ℝ) ≤ (0.0967940847666 : ℝ) := by
  have h := sin_le_sinT_odd 2 (0.096945871080 : ℝ) (by norm_num)
  rw [show 2 * 2 + 1 = 5 by norm_num] at h
  exact le_trans h sinT_eval_b_high

/-! ### Claim C4 -/

set_option maxHeartbeats 2000000 in
/-- C4: on the literal inputs `e = 0.1`, `M = 5° = π/36 rad`: `Kepler1` with
budget `n = 8` succeeds and returns `E = 5.554589°` to 6 decimal places, and
`Kepler2` with budget `n = 11` succeeds and returns `E = 5.554589254°` to 9
decimal places. -/
theorem C4_literal_cases :
    (∃ E1, Kepler1 (1 / 10) (Real.pi / 36) 8 = some E1 ∧
      |E1 * 180 / Real.pi - 5.554589| < 5e-7) ∧
    (∃ E2, Kepler2 (1 / 10) (Real.pi / 36) 11 = some E2 ∧
      |E2 * 180 / Real.pi - 5.554589254| < 5e-10) := by
  have hpiL : (3.14159265358979323846 : ℝ) < Real.pi := Real.pi_gt_d20
  have hpiU : Real.pi < (3.14159265358979323847 : ℝ) := Real.pi_lt_d20
  have hpipos : (0 : ℝ) < Real.pi := Real.pi_pos
  set M : ℝ := Real.pi / 36 with hMdef
  have hM0 : 0 ≤ M := by positivity
  have hMub : M ≤ 0.0872664626 := by
    rw [hMdef]
    nlinarith
  have hsinM : |Real.sin M| ≤ M := by
    have h := abs_sin_sub_sin_le M 0
    rw [Real.sin_zero, sub_zero, sub_zero, abs_of_nonneg hM0] at h
    exact h
  have hfa : keplerF (1 / 10) M (0.096945871073 : ℝ) ≤ 0 := by
    rw [keplerF]
    have h1 := sin_bracket_a_low
    rw [hMdef]
    linarith
  have hfb : 0 ≤ keplerF (1 / 10) M (0.096945871080 : ℝ) := by
    rw [keplerF]
    have h1 := sin_bracket_b_high
    rw [hMdef]
    linarith
  constructor
  · -- Kepler1, budget 8
    have hcontr : ∀ k : ℕ,
        |(fixpointStep (1 / 10) M)^[k + 1 + 1] M - (fixpointStep (1 / 10) M)^[k + 1] M|
          ≤ 1 / 10 * |(fixpointStep (1 / 10) M)^[k + 1] M - (fixpointStep (1 / 10) M)^[k] M| := by
      intro k
      rw [Function.iterate_succ_apply' (fixpointStep (1 / 10) M) (k + 1),
          Function.iterate_succ_apply' (fixpointStep (1 / 10) M) k]
      exact fixpoint_lipschitz (1 / 10) M _ _ (by norm_num)
    have hd0 : |(fixpointStep (1 / 10) M)^[0 + 1] M - (fixpointStep (1 / 10) M)^[0] M|
        ≤ 0.00872664626 := by
      simp only [zero_add, Function.iterate_one, Function.iterate_zero, id_eq]
      have h1 : fixpointStep (1 / 10) M M - M = 1 / 10 * Real.sin M := by
        rw [fixpointStep]
        ring
      rw [h1, abs_mul, abs_of_nonneg (by norm_num : (0 : ℝ) ≤ 1 / 10)]
      nlinarith
    have hgeom : ∀ k : ℕ,
        |(fixpointStep (1 / 10) M)^[k + 1] M - (fixpointStep (1 / 10) M)^[k] M|
          ≤ (1 / 10) ^ k * 0.00872664626 := by
      intro k
      induction k with
      | zero => simpa using hd0
      | succ k ih =>
        calc |(fixpointStep (1 / 10) M)^[k + 1 + 1] M - (fixpointStep (1 / 10) M)^[k + 1] M|
            ≤ 1 / 10 * |(fixpointStep (1 / 10) M)^[k + 1] M - (fixpointStep (1 / 10) M)^[k] M| :=
              hcontr k
          _ ≤ 1 / 10 * ((1 / 10) ^ k * 0.00872664626) := by
              exact mul_le_mul_of_nonneg_left ih (by norm_num)
          _ = (1 / 10) ^ (k + 1) * 0.00872664626 := by ring
    have hK1some : Kepler1 (1 / 10) M 8 ≠ none := by
      intro hnone
      rw [Kepler1, solveGo_eq_none_iff] at hnone
      have hall := hnone
      have h7 := hall 7 (by norm_num)
      have h8 := hgeom 7
      rw [tol1] at h7
      have hcon : (1e-9 : ℝ) ≤ (1 / 10) ^ 7 * 0.00872664626 := le_trans h7 h8
      norm_num at hcon
    obtain ⟨E1, hE1⟩ := Option.ne_none_iff_exists'.mp hK1some
    refine ⟨E1, hE1, ?_⟩
    obtain ⟨Ep1, hE1eq, hE1d⟩ := solveGo_eq_some _ _ _ _ _ hE1
    have hE1res : |keplerF (1 / 10) M E1| ≤ 1e-10 := by
      rw [hE1eq]
      have hr := fixpoint_residual (1 / 10) M Ep1 (by norm_num)
      rw [tol1] at hE1d
      linarith
    have hpos1 := near_bracket (1 / 10) M E1 0.096945871073 0.096945871080 (1e-10)
      (by norm_num) (by norm_num) hE1res hfa hfb
    have hE1lo : (0.096945871073 : ℝ) - 1.2e-10 ≤ E1 := by linarith [hpos1.1]
    have hE1hi : E1 ≤ (0.096945871080 : ℝ) + 1.2e-10 := by linarith [hpos1.2]
    rw [abs_lt]
    constructor
    · have hlo : (5.5545885 : ℝ) < E1 * 180 / Real.pi := by
        rw [lt_div_iff₀ hpipos]
        linarith
      linarith
    · have hhi : E1 * 180 / Real.pi < (5.5545895 : ℝ) := by
        rw [div_lt_iff₀ hpipos]
        linarith
      linarith
  · -- Kepler2, budget 11
    have hNcontr : ∀ k : ℕ,
        |(newtonStep (1 / 10) M)^[k + 1 + 1] M - (newtonStep (1 / 10) M)^[k + 1] M| * (1 - 1 / 10)
          ≤ 1 / 10 * ((newtonStep (1 / 10) M)^[k + 1] M - (newtonStep (1 / 10) M)^[k] M) ^ 2 := by
      intro k
      have h := newton_sq_step (1 / 10) M ((newtonStep (1 / 10) M)^[k] M)
        (by norm_num) (by norm_num)
      rw [Function.iterate_succ_apply' (newtonStep (1 / 10) M) (k + 1),
          Function.iterate_succ_apply' (newtonStep (1 / 10) M) k]
      exact h
    have hNd0 : |(newtonStep (1 / 10) M)^[0 + 1] M - (newtonStep (1 / 10) M)^[0] M|
        ≤ 0.0097 := by
      simp only [zero_add, Function.iterate_one, Function.iterate_zero, id_eq]
      have hD : (9 / 10 : ℝ) ≤ 1 - 1 / 10 * Real.cos M := by
        have := Real.cos_le_one M
        linarith
      have hDpos : (0 : ℝ) < 1 - 1 / 10 * Real.cos M := by linarith
      have hstep : newtonStep (1 / 10) M M - M
          = -((M - 1 / 10 * Real.sin M - M) / (1 - 1 / 10 * Real.cos M)) := by
        rw [newtonStep]
        ring
      rw [hstep, abs_neg, abs_div, abs_of_pos hDpos, div_le_iff₀ hDpos]
      have hnum : |M - 1 / 10 * Real.sin M - M| ≤ 1 / 10 * 0.0872664626 := by
        rw [show M - 1 / 10 * Real.sin M - M = -(1 / 10 * Real.sin M) by ring,
          abs_neg, abs_mul, abs_of_nonneg (by norm_num : (0 : ℝ) ≤ 1 / 10)]
        nlinarith
      nlinarith
    have hNd1 : |(newtonStep (1 / 10) M)^[1 + 1] M - (newtonStep (1 / 10) M)^[1] M|
        ≤ 1.05e-5 := by
      have h := hNcontr 0
      have hsq : ((newtonStep (1 / 10) M)^[0 + 1] M - (newtonStep (1 / 10) M)^[0] M) ^ 2
          ≤ 0.0097 ^ 2 := by
        rw [← sq_abs]
        exact pow_le_pow_left₀ (abs_nonneg _) hNd0 2
      linarith
    have hNd2 : |(newtonStep (1 / 10) M)^[2 + 1] M - (newtonStep (1 / 10) M)^[2] M|
        ≤ 1.3e-11 := by
      have h := hNcontr 1
      have hsq : ((newtonStep (1 / 10) M)^[1 + 1] M - (newtonStep (1 / 10) M)^[1] M) ^ 2
          ≤ (1.05e-5) ^ 2 := by
        rw [← sq_abs]
        exact pow_le_pow_left₀ (abs_nonneg _) hNd1 2
      linarith
    have hNd3 : |(newtonStep (1 / 10) M)^[3 + 1] M - (newtonStep (1 / 10) M)^[3] M|
        ≤ 2e-23 := by
      have h := hNcontr 2
      have hsq : ((newtonStep (1 / 10) M)^[2 + 1] M - (newtonStep (1 / 10) M)^[2] M) ^ 2
          ≤ (1.3e-11) ^ 2 := by
        rw [← sq_abs]
        exact pow_le_pow_left₀ (abs_nonneg _) hNd2 2
      linarith
    have hK2some : Kepler2 (1 / 10) M 11 ≠ none := by
      intro hnone
      rw [Kepler2, solveGo_eq_none_iff] at hnone
      have hall := hnone
      have h3 := hall 3 (by norm_num)
      rw [tol2] at h3
      have hcon : (1e-12 : ℝ) ≤ 2e-23 := le_trans h3 hNd3
      norm_num at hcon
    obtain ⟨E2, hE2⟩ := Option.ne_none_iff_exists'.mp hK2some
    refine ⟨E2, hE2, ?_⟩
    obtain ⟨Ep2, hE2eq, hE2d⟩ := solveGo_eq_some _ _ _ _ _ hE2
    have hE2res : |keplerF (1 / 10) M E2| ≤ 1e-25 := by
      rw [hE2eq]
      have hr := newton_residual (1 / 10) M Ep2 (by norm_num) (by norm_num)
      rw [tol2] at hE2d
      have hsq : (newtonStep (1 / 10) M Ep2 - Ep2) ^ 2 ≤ (1e-12 : ℝ) ^ 2 := by
        rw [← sq_abs]
        exact pow_le_pow_left₀ (abs_nonneg _) (le_of_lt hE2d) 2
      linarith
    have hpos2 := near_bracket (1 / 10) M E2 0.096945871073 0.096945871080 (1e-25)
      (by norm_num) (by norm_num) hE2res hfa hfb
    have hE2lo : (0.096945871073 : ℝ) - 2e-25 ≤ E2 := by linarith [hpos2.1]
    have hE2hi : E2 ≤ (0.096945871080 : ℝ) + 2e-25 := by linarith [hpos2.2]
    rw [abs_lt]
    constructor
    · have hlo : (5.5545892535 : ℝ) < E2 * 180 / Real.pi := by
        rw [lt_div_iff₀ hpipos]
        linarith
      linarith
    · have hhi : E2 * 180 / Real.pi < (5.5545892545 : ℝ) := by
        rw [div_lt_iff₀ hpipos]
        linarith
      linarith

/-! ### Tangent-line bounds and the monotone Newton trajectory -/

/-- Concavity of the sine on `[0, π]`: the tangent at `x` lies above the
graph. -/
theorem sin_tangent (x y : ℝ) (hx0 : 0 ≤ x) (hxπ : x ≤ Real.pi)
    (hy0 : 0 ≤ y) (hyπ : y ≤ Real.pi) :
    Real.sin y ≤ Real.sin x + (y - x) * Real.cos x := by
  rcases lt_trichotomy x y with h | h | h
  · obtain ⟨c, hc, hs⟩ := exists_hasDerivAt_eq_slope Real.sin Real.cos h
      (fun t _ => (Real.hasDerivAt_sin t).continuousAt.continuousWithinAt)
      (fun t _ => Real.hasDerivAt_sin t)
    have hyx : y - x ≠ 0 := sub_ne_zero.mpr (ne_of_gt h)
    have heq : Real.sin y - Real.sin x = Real.cos c * (y - x) := by
      field_simp at hs
      linarith [hs]
    have hcc : Real.cos c ≤ Real.cos x :=
      Real.cos_le_cos_of_nonneg_of_le_pi hx0
        (le_trans (le_of_lt hc.2) hyπ) (le_of_lt hc.1)
    nlinarith
  · subst h
    simp
  · obtain ⟨c, hc, hs⟩ := exists_hasDerivAt_eq_slope Real.sin Real.cos h
      (fun t _ => (Real.hasDerivAt_sin t).continuousAt.continuousWithinAt)
      (fun t _ => Real.hasDerivAt_sin t)
    have hxy : x - y ≠ 0 := sub_ne_zero.mpr (ne_of_gt h)
    have heq : Real.sin x - Real.sin y = Real.cos c * (x - y) := by
      field_simp at hs
      linarith [hs]
    have hcc : Real.cos x ≤ Real.cos c :=
      Real.cos_le_cos_of_nonneg_of_le_pi (le_trans hy0 (le_of_lt hc.1)) hxπ
        (le_of_lt hc.2)
    nlinarith

/-- Convexity of Kepler's residual on `[0, π]`: the tangent at `x` lies
below the graph. -/
theorem keplerF_tangent (e M x y : ℝ) (he : 0 ≤ e) (hx0 : 0 ≤ x)
    (hxπ : x ≤ Real.pi) (hy0 : 0 ≤ y) (hyπ : y ≤ Real.pi) :
    keplerF e M x + (1 - e * Real.cos x) * (y - x) ≤ keplerF e M y := by
  have h := sin_tangent x y hx0 hxπ hy0 hyπ
  simp only [keplerF]
  nlinarith [mul_le_mul_of_nonneg_left h he]

/-- The Newton iterates started at `π` stay inside `[a, π]` and keep a
nonnegative residual, for any point `a` of `[0, π]` with nonpositive
residual. -/
theorem newton_inv (e M a : ℝ) (he : 0 ≤ e) (hlt : e < 1)
    (ha0 : 0 ≤ a) (haπ : a ≤ Real.pi) (hfa : keplerF e M a ≤ 0)
    (hfπ : 0 ≤ keplerF e M Real.pi) :
    ∀ k, a ≤ (newtonStep e M)^[k] Real.pi ∧
      (newtonStep e M)^[k] Real.pi ≤ Real.pi ∧
      0 ≤ keplerF e M ((newtonStep e M)^[k] Real.pi) := by
  intro k
  induction k with
  | zero =>
    simp only [Function.iterate_zero, id_eq]
    exact ⟨haπ, le_refl _, hfπ⟩
  | succ k ih =>
    obtain ⟨h1, h2, h3⟩ := ih
    set x := (newtonStep e M)^[k] Real.pi with hx
    have hD : 1 - e ≤ 1 - e * Real.cos x := newton_denom_ge e x he
    have hDpos : 0 < 1 - e * Real.cos x := lt_of_lt_of_le (by linarith) hD
    have hx0 : 0 ≤ x := le_trans ha0 h1
    have hstep : (newtonStep e M)^[k + 1] Real.pi
        = x - keplerF e M x / (1 - e * Real.cos x) := by
      rw [Function.iterate_succ_apply']
      rfl
    have hΔ : 0 ≤ keplerF e M x / (1 - e * Real.cos x) :=
      div_nonneg h3 (le_of_lt hDpos)
    have hle : (newtonStep e M)^[k + 1] Real.pi ≤ x := by
      rw [hstep]
      linarith
    have htan := keplerF_tangent e M x a he hx0 h2 ha0 haπ
    have hxa : keplerF e M x / (1 - e * Real.cos x) ≤ x - a := by
      rw [div_le_iff₀ hDpos]
      nlinarith
    have hanext : a ≤ (newtonStep e M)^[k + 1] Real.pi := by
      rw [hstep]
      linarith
    refine ⟨hanext, le_trans hle h2, ?_⟩
    have hnext0 : 0 ≤ (newtonStep e M)^[k + 1] Real.pi := le_trans ha0 hanext
    have hnextπ : (newtonStep e M)^[k + 1] Real.pi ≤ Real.pi := le_trans hle h2
    have htan2 := keplerF_tangent e M x ((newtonStep e M)^[k + 1] Real.pi) he
      hx0 h2 hnext0 hnextπ
    rw [hstep] at htan2 ⊢
    have hcancel : (1 - e * Real.cos x) *
        ((x - keplerF e M x / (1 - e * Real.cos x)) - x) = -(keplerF e M x) := by
      field_simp
      ring
    linarith

/-! ### Enclosures at the high-eccentricity literal inputs -/

theorem sinT_eval_a3_low :
    (0.8757549144258005 : ℝ) ≤ sinT 10 (1.06699736528152 : ℝ) := by
  simp only [sinT, Finset.sum_range_succ, Finset.sum_range_zero, Nat.factorial]
  norm_num

theorem sinT_eval_a3_high :
    sinT 9 (1.06699736528152 : ℝ) ≤ (0.8757549144258006 : ℝ) := by
  simp only [sinT, Finset.sum_range_succ, Finset.sum_range_zero, Nat.factorial]
  norm_num

theorem sinT_eval_b3_high :
    sinT 9 (1.06699736528161 : ℝ) ≤ (0.8757549144258441 : ℝ) := by
  simp only [sinT, Finset.sum_range_succ, Finset.sum_range_zero, Nat.factorial]
  norm_num

theorem cosT_eval_a3_high :
    cosT 5 (1.06699736528152 : ℝ) ≤ (0.482757 : ℝ) := by
  simp only [cosT, Finset.sum_range_succ, Finset.sum_range_zero, Nat.factorial]
  norm_num

/-- Two-sided enclosure of the sine at the lower bracket point of the
`e = 0.99`, `M = 0.2` test case. -/
theorem sin_a3_bounds :
    (0.8757549144258005 : ℝ) ≤ Real.sin (1.06699736528152 : ℝ) ∧
      Real.sin (1.06699736528152 : ℝ) ≤ (0.8757549144258006 : ℝ) := by
  constructor
  · have h := sinT_le_sin_even 4 (1.06699736528152 : ℝ) (by norm_num)
    rw [show 2 * 4 + 2 = 10 by norm_num] at h
    exact le_trans sinT_eval_a3_low h
  · have h := sin_le_sinT_odd 4 (1.06699736528152 : ℝ) (by norm_num)
    rw [show 2 * 4 + 1 = 9 by norm_num] at h
    exact le_trans h sinT_eval_a3_high

/-- Upper bound on the sine at the upper bracket point of the `e = 0.99`,
`M = 0.2` test case. -/
theorem sin_b3_high :
    Real.sin (1.06699736528161 : ℝ) ≤ (0.8757549144258441 : ℝ) := by
  have h := sin_le_sinT_odd 4 (1.06699736528161 : ℝ) (by norm_num)
  rw [show 2 * 4 + 1 = 9 by norm_num] at h
  exact le_trans h sinT_eval_b3_high

/-- Upper bound on the cosine at the lower bracket point of the `e = 0.99`,
`M = 0.2` test case. -/
theorem cos_a3_high : Real.cos (1.06699736528152 : ℝ) ≤ (0.482757 : ℝ) := by
  have h := cos_le_cosT_odd 2 (1.06699736528152 : ℝ) (by norm_num)
  rw [show 2 * 2 + 1 = 5 by norm_num] at h
  exact le_trans h cosT_eval_a3_high

/-! ### Claim C3 -/

set_option maxHeartbeats 4000000 in
/-- C3 (amended): the two Newton variants `Kepler2a` and `Kepler2b` return
identical results on every input; and at the concrete high-eccentricity
case `e = 0.99`, `M = 0.2 rad` with `n = 14`, they and the bounded search
`Kepler3` all succeed and agree: every returned value equals
`1.066997365282 rad` to 12 decimal places, and the Newton and
bounded-search answers agree to better than `1e-12`.  Universal
12-significant-digit agreement over all convergent inputs does not hold:
see the counterexample at `M = 0`, where the eccentric anomaly sits at the
scale of the solvers' absolute tolerances. -/
theorem C3_amended :
    (∀ (e M : ℝ) (n : ℕ), Kepler2a e M n = Kepler2b e M n) ∧
    ∃ E2a E2b : ℝ,
      Kepler2a (99 / 100) (1 / 5) 14 = some E2a ∧
      Kepler2b (99 / 100) (1 / 5) 14 = some E2b ∧
      E2a = E2b ∧
      |E2a - 1.066997365282| < 5e-13 ∧
      |Kepler3 (99 / 100) (1 / 5) - 1.066997365282| < 5e-13 ∧
      |E2a - Kepler3 (99 / 100) (1 / 5)| < 1e-12 := by
  refine ⟨fun e M n => rfl, ?_⟩
  have hpiL : (3.14159265358979323846 : ℝ) < Real.pi := Real.pi_gt_d20
  have hpiU : Real.pi < (3.14159265358979323847 : ℝ) := Real.pi_lt_d20
  have hfa3 : keplerF (99 / 100) (1 / 5) (1.06699736528152 : ℝ) ≤ 0 := by
    rw [keplerF]
    have h := sin_a3_bounds.1
    linarith
  have hfa3lo : -(3e-14 : ℝ) ≤ keplerF (99 / 100) (1 / 5) (1.06699736528152 : ℝ) := by
    rw [keplerF]
    have h := sin_a3_bounds.2
    linarith
  have hfb3 : 0 ≤ keplerF (99 / 100) (1 / 5) (1.06699736528161 : ℝ) := by
    rw [keplerF]
    have h := sin_b3_high
    linarith
  have ha30 : (0 : ℝ) ≤ 1.06699736528152 := by norm_num
  have ha3π : (1.06699736528152 : ℝ) ≤ Real.pi := by linarith
  have hfπ : 0 ≤ keplerF (99 / 100) (1 / 5) Real.pi := by
    rw [keplerF, Real.sin_pi, mul_zero, sub_zero]
    linarith
  have hinv := newton_inv (99 / 100) (1 / 5) 1.06699736528152 (by norm_num)
    (by norm_num) ha30 ha3π hfa3 hfπ
  have hstepf : ∀ k, (newtonStep (99 / 100) (1 / 5))^[k + 1] Real.pi = (newtonStep (99 / 100) (1 / 5))^[k] Real.pi
      - keplerF (99 / 100) (1 / 5) ((newtonStep (99 / 100) (1 / 5))^[k] Real.pi)
        / (1 - 99 / 100 * Real.cos ((newtonStep (99 / 100) (1 / 5))^[k] Real.pi)) := by
    intro k
    rw [Function.iterate_succ_apply']
    rfl
  have hca : (0.522 : ℝ) ≤ 1 - 99 / 100 * Real.cos (1.06699736528152 : ℝ) := by
    have := cos_a3_high
    nlinarith
  have hDlb : ∀ k, (0.522 : ℝ) ≤ 1 - 99 / 100 * Real.cos ((newtonStep (99 / 100) (1 / 5))^[k] Real.pi) := by
    intro k
    obtain ⟨h1, h2, _⟩ := hinv k
    have hc : Real.cos ((newtonStep (99 / 100) (1 / 5))^[k] Real.pi) ≤ Real.cos (1.06699736528152 : ℝ) :=
      Real.cos_le_cos_of_nonneg_of_le_pi ha30 h2 h1
    linarith
  have hDpos : ∀ k, (0 : ℝ) < 1 - 99 / 100 * Real.cos ((newtonStep (99 / 100) (1 / 5))^[k] Real.pi) :=
    fun k => lt_of_lt_of_le (by norm_num) (hDlb k)
  have hDub : ∀ k, 1 - 99 / 100 * Real.cos ((newtonStep (99 / 100) (1 / 5))^[k] Real.pi) ≤ (199 / 100 : ℝ) := by
    intro k
    nlinarith [Real.neg_one_le_cos ((newtonStep (99 / 100) (1 / 5))^[k] Real.pi)]
  have hdec : ∀ k, (newtonStep (99 / 100) (1 / 5))^[k + 1] Real.pi ≤ (newtonStep (99 / 100) (1 / 5))^[k] Real.pi := by
    intro k
    obtain ⟨_, _, h3⟩ := hinv k
    rw [hstepf k]
    have := div_nonneg h3 (le_of_lt (hDpos k))
    linarith
  have hlin : ∀ k, (newtonStep (99 / 100) (1 / 5))^[k + 1] Real.pi - 1.06699736528152
      ≤ 0.7377 * ((newtonStep (99 / 100) (1 / 5))^[k] Real.pi - 1.06699736528152) + 2e-14 := by
    intro k
    obtain ⟨h1, h2, h3⟩ := hinv k
    have htan := keplerF_tangent (99 / 100) (1 / 5) 1.06699736528152
      ((newtonStep (99 / 100) (1 / 5))^[k] Real.pi) (by norm_num) ha30 ha3π (le_trans ha30 h1) h2
    have hflb : 0.522 * ((newtonStep (99 / 100) (1 / 5))^[k] Real.pi - 1.06699736528152) - 3e-14
        ≤ keplerF (99 / 100) (1 / 5) ((newtonStep (99 / 100) (1 / 5))^[k] Real.pi) := by
      have hprod := mul_le_mul_of_nonneg_right hca (sub_nonneg.mpr h1)
      linarith [htan, hfa3lo, hprod]
    have hd1 : keplerF (99 / 100) (1 / 5) ((newtonStep (99 / 100) (1 / 5))^[k] Real.pi) / (199 / 100)
        ≤ keplerF (99 / 100) (1 / 5) ((newtonStep (99 / 100) (1 / 5))^[k] Real.pi)
          / (1 - 99 / 100 * Real.cos ((newtonStep (99 / 100) (1 / 5))^[k] Real.pi)) := by
      rw [div_le_div_iff (by norm_num) (hDpos k)]
      have hprod := mul_le_mul_of_nonneg_left (hDub k) h3
      linarith [hprod]
    rw [hstepf k]
    linarith
  have hδ1 : (newtonStep (99 / 100) (1 / 5))^[1] Real.pi - 1.06699736528152 ≤ (0.59641 : ℝ) := by
    have h := hstepf 0
    simp only [Function.iterate_zero, id_eq] at h
    rw [keplerF, Real.sin_pi, Real.cos_pi] at h
    rw [show (newtonStep (99 / 100) (1 / 5))^[0+1] Real.pi = (newtonStep (99 / 100) (1 / 5))^[1] Real.pi by norm_num] at h
    rw [h]
    have hx : Real.pi - (Real.pi - 99 / 100 * 0 - 1 / 5) / (1 - 99 / 100 * (-1))
        = Real.pi * (99 / 199) + 20 / 199 := by
      ring
    rw [hx]
    linarith
  have hδ2 : (newtonStep (99 / 100) (1 / 5))^[2] Real.pi - 1.06699736528152 ≤ (0.44 : ℝ) := by
    have h := hlin 1
    linarith
  have hδ3 : (newtonStep (99 / 100) (1 / 5))^[3] Real.pi - 1.06699736528152 ≤ (0.3246 : ℝ) := by
    have h := hlin 2
    linarith
  have hδ4 : (newtonStep (99 / 100) (1 / 5))^[4] Real.pi - 1.06699736528152 ≤ (0.23946 : ℝ) := by
    have h := hlin 3
    linarith
  have hδ5 : (newtonStep (99 / 100) (1 / 5))^[5] Real.pi - 1.06699736528152 ≤ (0.17667 : ℝ) := by
    have h := hlin 4
    linarith
  have hδ6 : (newtonStep (99 / 100) (1 / 5))^[6] Real.pi - 1.06699736528152 ≤ (0.13034 : ℝ) := by
    have h := hlin 5
    linarith
  have hδ7 : (newtonStep (99 / 100) (1 / 5))^[7] Real.pi - 1.06699736528152 ≤ (0.09616 : ℝ) := by
    have h := hlin 6
    linarith
  have hquad : ∀ k, (newtonStep (99 / 100) (1 / 5))^[k + 1] Real.pi - (newtonStep (99 / 100) (1 / 5))^[k + 2] Real.pi
      ≤ 1.897 * ((newtonStep (99 / 100) (1 / 5))^[k] Real.pi - (newtonStep (99 / 100) (1 / 5))^[k + 1] Real.pi) ^ 2 := by
    intro k
    have hres := newton_residual (99 / 100) (1 / 5) ((newtonStep (99 / 100) (1 / 5))^[k] Real.pi)
      (by norm_num) (by norm_num)
    rw [← Function.iterate_succ_apply' (newtonStep (99 / 100) (1 / 5)) k] at hres
    obtain ⟨_, _, h3⟩ := hinv (k + 1)
    have hfub : keplerF (99 / 100) (1 / 5) ((newtonStep (99 / 100) (1 / 5))^[k + 1] Real.pi)
        ≤ 99 / 100 * ((newtonStep (99 / 100) (1 / 5))^[k + 1] Real.pi - (newtonStep (99 / 100) (1 / 5))^[k] Real.pi) ^ 2 :=
      le_trans (le_abs_self _) hres
    have hstep2 := hstepf (k + 1)
    have hd : keplerF (99 / 100) (1 / 5) ((newtonStep (99 / 100) (1 / 5))^[k + 1] Real.pi)
        / (1 - 99 / 100 * Real.cos ((newtonStep (99 / 100) (1 / 5))^[k + 1] Real.pi))
        ≤ keplerF (99 / 100) (1 / 5) ((newtonStep (99 / 100) (1 / 5))^[k + 1] Real.pi) / (0.522 : ℝ) := by
      rw [div_le_div_iff (hDpos (k + 1)) (by norm_num)]
      have hprod := mul_le_mul_of_nonneg_left (hDlb (k + 1)) h3
      linarith [hprod]
    have hsq : ((newtonStep (99 / 100) (1 / 5))^[k + 1] Real.pi - (newtonStep (99 / 100) (1 / 5))^[k] Real.pi) ^ 2
        = ((newtonStep (99 / 100) (1 / 5))^[k] Real.pi - (newtonStep (99 / 100) (1 / 5))^[k + 1] Real.pi) ^ 2 := by
      ring
    rw [hsq] at hfub
    rw [hstep2]
    have hfin : keplerF (99 / 100) (1 / 5) ((newtonStep (99 / 100) (1 / 5))^[k + 1] Real.pi) / (0.522 : ℝ)
        ≤ 1.897 * ((newtonStep (99 / 100) (1 / 5))^[k] Real.pi - (newtonStep (99 / 100) (1 / 5))^[k + 1] Real.pi) ^ 2 := by
      rw [div_le_iff₀ (by norm_num : (0:ℝ) < 0.522)]
      linarith [hfub, sq_nonneg ((newtonStep (99 / 100) (1 / 5))^[k] Real.pi - (newtonStep (99 / 100) (1 / 5))^[k + 1] Real.pi)]
    linarith
  have hΔ8 : (newtonStep (99 / 100) (1 / 5))^[7] Real.pi - (newtonStep (99 / 100) (1 / 5))^[8] Real.pi ≤ (0.09616 : ℝ) := by
    obtain ⟨h1, _, _⟩ := hinv 8
    linarith
  have hsq8 : ((newtonStep (99 / 100) (1 / 5))^[7] Real.pi - (newtonStep (99 / 100) (1 / 5))^[8] Real.pi) ^ 2 ≤ (0.09616 : ℝ) ^ 2 := by
    have h0 : 0 ≤ (newtonStep (99 / 100) (1 / 5))^[7] Real.pi - (newtonStep (99 / 100) (1 / 5))^[8] Real.pi := by linarith [hdec 7]
    exact pow_le_pow_left₀ h0 hΔ8 2
  have hΔ9 : (newtonStep (99 / 100) (1 / 5))^[8] Real.pi - (newtonStep (99 / 100) (1 / 5))^[9] Real.pi ≤ (0.01755 : ℝ) := by
    have h := hquad 7
    linarith [hsq8]
  have hsq9 : ((newtonStep (99 / 100) (1 / 5))^[8] Real.pi - (newtonStep (99 / 100) (1 / 5))^[9] Real.pi) ^ 2 ≤ (0.01755 : ℝ) ^ 2 := by
    have h0 : 0 ≤ (newtonStep (99 / 100) (1 / 5))^[8] Real.pi - (newtonStep (99 / 100) (1 / 5))^[9] Real.pi := by linarith [hdec 8]
    exact pow_le_pow_left₀ h0 hΔ9 2
  have hΔ10 : (newtonStep (99 / 100) (1 / 5))^[9] Real.pi - (newtonStep (99 / 100) (1 / 5))^[10] Real.pi ≤ (5.85e-4 : ℝ) := by
    have h := hquad 8
    linarith [hsq9]
  have hsq10 : ((newtonStep (99 / 100) (1 / 5))^[9] Real.pi - (newtonStep (99 / 100) (1 / 5))^[10] Real.pi) ^ 2 ≤ (5.85e-4 : ℝ) ^ 2 := by
    have h0 : 0 ≤ (newtonStep (99 / 100) (1 / 5))^[9] Real.pi - (newtonStep (99 / 100) (1 / 5))^[10] Real.pi := by linarith [hdec 9]
    exact pow_le_pow_left₀ h0 hΔ10 2
  have hΔ11 : (newtonStep (99 / 100) (1 / 5))^[10] Real.pi - (newtonStep (99 / 100) (1 / 5))^[11] Real.pi ≤ (6.5e-7 : ℝ) := by
    have h := hquad 9
    linarith [hsq10]
  have hsq11 : ((newtonStep (99 / 100) (1 / 5))^[10] Real.pi - (newtonStep (99 / 100) (1 / 5))^[11] Real.pi) ^ 2 ≤ (6.5e-7 : ℝ) ^ 2 := by
    have h0 : 0 ≤ (newtonStep (99 / 100) (1 / 5))^[10] Real.pi - (newtonStep (99 / 100) (1 / 5))^[11] Real.pi := by linarith [hdec 10]
    exact pow_le_pow_left₀ h0 hΔ11 2
  have hΔ12 : (newtonStep (99 / 100) (1 / 5))^[11] Real.pi - (newtonStep (99 / 100) (1 / 5))^[12] Real.pi ≤ (8.1e-13 : ℝ) := by
    have h := hquad 10
    linarith [hsq11]
  have hK2a : Kepler2a (99 / 100) (1 / 5) 14 ≠ none := by
    intro hnone
    rw [Kepler2a, solveGo_eq_none_iff] at hnone
    have h11 := hnone 11 (by norm_num)
    rw [tol2] at h11
    have habs : |(newtonStep (99 / 100) (1 / 5))^[11 + 1] Real.pi - (newtonStep (99 / 100) (1 / 5))^[11] Real.pi|
        = (newtonStep (99 / 100) (1 / 5))^[11] Real.pi - (newtonStep (99 / 100) (1 / 5))^[12] Real.pi := by
      rw [abs_of_nonpos (by linarith [hdec 11])]
      rw [show (11 : ℕ) + 1 = 12 by norm_num]
      ring
    rw [habs] at h11
    linarith
  obtain ⟨E2a, hE2a⟩ := Option.ne_none_iff_exists'.mp hK2a
  obtain ⟨Ep, hEeq, hEd⟩ := solveGo_eq_some _ _ _ _ _ hE2a
  have hE2ares : |keplerF (99 / 100) (1 / 5) E2a| ≤ 1e-24 := by
    rw [hEeq]
    have hr := newton_residual (99 / 100) (1 / 5) Ep (by norm_num) (by norm_num)
    rw [tol2] at hEd
    have hsq : (newtonStep (99 / 100) (1 / 5) Ep - Ep) ^ 2 ≤ (1e-12 : ℝ) ^ 2 := by
      rw [← sq_abs]
      exact pow_le_pow_left₀ (abs_nonneg _) (le_of_lt hEd) 2
    linarith
  have hpos := near_bracket (99 / 100) (1 / 5) E2a 1.06699736528152 1.06699736528161
    (1e-24) (by norm_num) (by norm_num) hE2ares hfa3 hfb3
  have hE2alo : (1.06699736528152 : ℝ) - 1e-22 ≤ E2a := by linarith [hpos.1]
  have hE2ahi : E2a ≤ (1.06699736528161 : ℝ) + 1e-22 := by linarith [hpos.2]
  have hE2aval : |E2a - 1.066997365282| < 5e-13 := by
    rw [abs_lt]
    constructor
    · linarith
    · linarith
  -- the bounded search
  obtain ⟨hbl, hbr⟩ := kepler3_bracket (99 / 100) (1 / 5) (by norm_num) (by norm_num)
  obtain ⟨a1, a2, a3, a4, a5, a6⟩ :=
    bisect_spec (keplerF (99 / 100) (1 / 5)) kepler3Steps (1 / 5 - 1) (1 / 5 + 1)
      hbl hbr (by norm_num)
  have hwidth : (bisect (keplerF (99 / 100) (1 / 5)) (1 / 5 - 1) (1 / 5 + 1) kepler3Steps).2
      - (bisect (keplerF (99 / 100) (1 / 5)) (1 / 5 - 1) (1 / 5 + 1) kepler3Steps).1
      ≤ 1e-17 := by
    rw [a6, kepler3Steps]
    norm_num
  have hlob : (bisect (keplerF (99 / 100) (1 / 5)) (1 / 5 - 1) (1 / 5 + 1) kepler3Steps).1
      ≤ (1.06699736528161 : ℝ) := by
    by_contra hcon
    push_neg at hcon
    have := (keplerF_slope (99 / 100) (1 / 5) 1.06699736528161
      ((bisect (keplerF (99 / 100) (1 / 5)) (1 / 5 - 1) (1 / 5 + 1) kepler3Steps).1)
      (by norm_num) (le_of_lt hcon)).1
    linarith [a1, hfb3]
  have hhia : (1.06699736528152 : ℝ)
      ≤ (bisect (keplerF (99 / 100) (1 / 5)) (1 / 5 - 1) (1 / 5 + 1) kepler3Steps).2 := by
    by_contra hcon
    push_neg at hcon
    have := (keplerF_slope (99 / 100) (1 / 5)
      ((bisect (keplerF (99 / 100) (1 / 5)) (1 / 5 - 1) (1 / 5 + 1) kepler3Steps).2)
      1.06699736528152 (by norm_num) (le_of_lt hcon)).1
    linarith [a2, hfa3]
  have hK3val : |Kepler3 (99 / 100) (1 / 5) - 1.066997365282| < 5e-13 := by
    rw [Kepler3, abs_lt]
    constructor
    · linarith
    · linarith
  refine ⟨E2a, E2a, hE2a, hE2a, rfl, hE2aval, hK3val, ?_⟩
  rw [abs_lt] at hE2aval hK3val ⊢
  constructor
  · linarith
  · linarith

set_option maxHeartbeats 2000000 in
/-- C3 counterexample: the universal clause of the claim fails.  At
`e = 0.99`, `M = 0` with budget `6500`, the Newton variants converge and
return an answer within `1e-22` of the true eccentric anomaly `0`, while
the bounded search `Kepler3` returns exactly `2⁻⁶⁰ ≈ 8.7e-19`: the
difference between the two answers exceeds `1e-11` times the larger
magnitude, so they do not agree even to one significant digit, let alone
twelve. -/
theorem C3_counterexample :
    ∃ E2a : ℝ,
      Kepler2a (99 / 100) 0 6500 = some E2a ∧
      Kepler2b (99 / 100) 0 6500 = some E2a ∧
      |E2a| ≤ 1e-22 ∧
      Kepler3 (99 / 100) 0 = 1 / 2 ^ 60 ∧
      |E2a - Kepler3 (99 / 100) 0| > 1e-11 * max |E2a| |Kepler3 (99 / 100) 0| := by
  -- the bounded search: the residual is zero at `0` and positive to the
  -- right, so the bracket never moves its lower end and `Kepler3` returns
  -- the midpoint of `[0, 2⁻⁵⁹]`
  have hsin : ∀ x : ℝ, 0 < x → 0 < keplerF (99 / 100) 0 x := by
    intro x hx
    rw [keplerF, sub_zero]
    have hs := Real.sin_lt hx
    linarith
  have hbis : ∀ k : ℕ, ∀ h : ℝ, 0 < h →
      bisect (keplerF (99 / 100) 0) 0 h k = (0, h / 2 ^ k) := by
    intro k
    induction k with
    | zero =>
      intro h hh
      rw [bisect]
      norm_num
    | succ k ih =>
      intro h hh
      rw [bisect]
      have hmid : ((0 : ℝ) + h) / 2 = h / 2 := by ring
      have hpos : (0 : ℝ) < h / 2 := by linarith
      have hcond : ¬ keplerF (99 / 100) 0 ((0 + h) / 2) ≤ 0 := by
        push_neg
        rw [hmid]
        exact hsin (h / 2) hpos
      rw [if_neg hcond, hmid, ih (h / 2) hpos]
      rw [show h / 2 / 2 ^ k = h / 2 ^ (k + 1) by rw [pow_succ]; ring]
  have hK3 : Kepler3 (99 / 100) 0 = 1 / 2 ^ 60 := by
    rw [Kepler3, kepler3Steps]
    rw [show (0 : ℝ) - 1 = -1 by norm_num, show (0 : ℝ) + 1 = 1 by norm_num]
    rw [show (60 : ℕ) = 59 + 1 by norm_num]
    rw [bisect]
    have hcond : keplerF (99 / 100) 0 ((-1 + 1) / 2) ≤ 0 := by
      rw [show ((-1 : ℝ) + 1) / 2 = 0 by norm_num]
      rw [keplerF, Real.sin_zero]
      norm_num
    rw [if_pos hcond]
    rw [show ((-1 : ℝ) + 1) / 2 = 0 by norm_num]
    rw [hbis 59 1 one_pos]
    norm_num
  -- the Newton solver: monotone decrease from `π` with geometric rate
  -- `198/199`, so the step size is below tolerance within the budget, and
  -- the small-residual bound puts the answer within `1e-22` of `0`
  have h00 : keplerF (99 / 100) 0 0 = 0 := by
    rw [keplerF, Real.sin_zero]
    norm_num
  have hfa0 : keplerF (99 / 100) 0 0 ≤ 0 := le_of_eq h00
  have hfb0 : 0 ≤ keplerF (99 / 100) 0 0 := ge_of_eq h00
  have hfπ0 : 0 ≤ keplerF (99 / 100) 0 Real.pi := by
    rw [keplerF, Real.sin_pi, mul_zero, sub_zero, sub_zero]
    exact Real.pi_pos.le
  have hinv := newton_inv (99 / 100) 0 0 (by norm_num) (by norm_num)
    le_rfl Real.pi_pos.le hfa0 hfπ0
  have hstepf : ∀ k, (newtonStep (99 / 100) 0)^[k + 1] Real.pi
      = (newtonStep (99 / 100) 0)^[k] Real.pi
        - keplerF (99 / 100) 0 ((newtonStep (99 / 100) 0)^[k] Real.pi)
          / (1 - 99 / 100 * Real.cos ((newtonStep (99 / 100) 0)^[k] Real.pi)) := by
    intro k
    rw [Function.iterate_succ_apply']
    rfl
  have hDpos : ∀ k, (0 : ℝ)
      < 1 - 99 / 100 * Real.cos ((newtonStep (99 / 100) 0)^[k] Real.pi) := by
    intro k
    have hc := Real.cos_le_one ((newtonStep (99 / 100) 0)^[k] Real.pi)
    linarith
  have hDub : ∀ k, 1 - 99 / 100 * Real.cos ((newtonStep (99 / 100) 0)^[k] Real.pi)
      ≤ (199 / 100 : ℝ) := by
    intro k
    have hc := Real.neg_one_le_cos ((newtonStep (99 / 100) 0)^[k] Real.pi)
    linarith
  have hdec : ∀ k, (newtonStep (99 / 100) 0)^[k + 1] Real.pi
      ≤ (newtonStep (99 / 100) 0)^[k] Real.pi := by
    intro k
    obtain ⟨_, _, h3⟩ := hinv k
    rw [hstepf k]
    have := div_nonneg h3 (le_of_lt (hDpos k))
    linarith
  have hflb : ∀ k, ((newtonStep (99 / 100) 0)^[k] Real.pi) / 100
      ≤ keplerF (99 / 100) 0 ((newtonStep (99 / 100) 0)^[k] Real.pi) := by
    intro k
    obtain ⟨h1, h2, _⟩ := hinv k
    have htan := keplerF_tangent (99 / 100) 0 0 ((newtonStep (99 / 100) 0)^[k] Real.pi)
      (by norm_num) le_rfl Real.pi_pos.le h1 h2
    rw [h00, Real.cos_zero] at htan
    linarith
  have hstep_ge : ∀ k, ((newtonStep (99 / 100) 0)^[k] Real.pi) / 199
      ≤ keplerF (99 / 100) 0 ((newtonStep (99 / 100) 0)^[k] Real.pi)
        / (1 - 99 / 100 * Real.cos ((newtonStep (99 / 100) 0)^[k] Real.pi)) := by
    intro k
    obtain ⟨h1, _, h3⟩ := hinv k
    rw [div_le_div_iff (by norm_num) (hDpos k)]
    have hprod := mul_le_mul_of_nonneg_left (hDub k) h1
    linarith [hflb k, hprod]
  have hgeo : ∀ k, (newtonStep (99 / 100) 0)^[k] Real.pi
      ≤ Real.pi * (198 / 199) ^ k := by
    intro k
    induction k with
    | zero => simp
    | succ k ih =>
      have hs := hstep_ge k
      rw [hstepf k, pow_succ]
      have hmul : (198 / 199 : ℝ) * ((newtonStep (99 / 100) 0)^[k] Real.pi)
          ≤ (198 / 199 : ℝ) * (Real.pi * (198 / 199) ^ k) :=
        mul_le_mul_of_nonneg_left ih (by norm_num)
      linarith
  have hnum : Real.pi * (198 / 199 : ℝ) ^ 6000 < 1e-12 := by
    have hpiU : Real.pi < (3.14159265358979323847 : ℝ) := Real.pi_lt_d20
    have hp : (0 : ℝ) < (198 / 199 : ℝ) ^ 6000 := by positivity
    have hval : (3.14159265358979323847 : ℝ) * (198 / 199 : ℝ) ^ 6000 < 1e-12 := by
      norm_num
    have h2 := mul_lt_mul_of_pos_right hpiU hp
    linarith
  have hΔsmall : |(newtonStep (99 / 100) 0)^[6000 + 1] Real.pi
      - (newtonStep (99 / 100) 0)^[6000] Real.pi| < tol2 := by
    rw [tol2]
    have h2 := (hinv 6001).1
    have h3 := hgeo 6000
    have habs : |(newtonStep (99 / 100) 0)^[6000 + 1] Real.pi
        - (newtonStep (99 / 100) 0)^[6000] Real.pi|
        = (newtonStep (99 / 100) 0)^[6000] Real.pi
          - (newtonStep (99 / 100) 0)^[6001] Real.pi := by
      rw [abs_of_nonpos (by linarith [hdec 6000])]
      rw [show (6000 : ℕ) + 1 = 6001 by norm_num]
      ring
    rw [habs]
    linarith [hnum]
  have hK2a : Kepler2a (99 / 100) 0 6500 ≠ none := by
    intro hnone
    rw [Kepler2a, solveGo_eq_none_iff] at hnone
    have h6000 := hnone 6000 (by norm_num)
    exact absurd hΔsmall (not_lt.mpr h6000)
  obtain ⟨E2a, hE2a⟩ := Option.ne_none_iff_exists'.mp hK2a
  obtain ⟨Ep, hEeq, hEd⟩ := solveGo_eq_some _ _ _ _ _ hE2a
  have hE2ares : |keplerF (99 / 100) 0 E2a| ≤ 1e-24 := by
    rw [hEeq]
    have hr := newton_residual (99 / 100) 0 Ep (by norm_num) (by norm_num)
    rw [tol2] at hEd
    have hsq : (newtonStep (99 / 100) 0 Ep - Ep) ^ 2 ≤ (1e-12 : ℝ) ^ 2 := by
      rw [← sq_abs]
      exact pow_le_pow_left₀ (abs_nonneg _) (le_of_lt hEd) 2
    linarith
  have hbr := near_bracket (99 / 100) 0 E2a 0 0 (1e-24) (by norm_num) (by norm_num)
    hE2ares hfa0 hfb0
  have hE2abs : |E2a| ≤ 1e-22 := by
    rw [abs_le]
    refine ⟨by linarith [hbr.1], by linarith [hbr.2]⟩
  have hK3pos : (0 : ℝ) < 1 / 2 ^ 60 := by norm_num
  refine ⟨E2a, hE2a, hE2a, hE2abs, hK3, ?_⟩
  rw [hK3, abs_of_pos hK3pos]
  have hmax : max |E2a| (1 / 2 ^ 60 : ℝ) ≤ 1 / 2 ^ 60 :=
    max_le (le_trans hE2abs (by norm_num)) le_rfl
  have hlow : (1 / 2 ^ 60 : ℝ) - 1e-22 ≤ |E2a - 1 / 2 ^ 60| := by
    have h1 := neg_abs_le (E2a - 1 / 2 ^ 60)
    have h2 := (abs_le.mp hE2abs).2
    linarith
  have hr2 : (1e-11 : ℝ) * max |E2a| (1 / 2 ^ 60 : ℝ) ≤ 1e-11 * (1 / 2 ^ 60) :=
    mul_le_mul_of_nonneg_left hmax (by norm_num)
  have hnum2 : (1e-11 : ℝ) * (1 / 2 ^ 60) < 1 / 2 ^ 60 - 1e-22 := by norm_num
  linarith

end Meeus
